import Mathlib

/-!
Verification development for the scholarly-literature federation engine
(`backend/` Python sources). Python code is shallowly embedded: pure
functions become Lean functions, in-place mutation of shared paper objects
is modelled by an explicit store indexed by allocation order, Python floats
are modelled by rationals, and fallible operations return an explicit
success-or-failure value mirroring `backend/utils/result.py`.
-/

/-! ### Result discipline (`backend/utils/result.py`)

`Ok`/`Err` from `result.py`.  `Ok.unwrap` returns the stored value,
`Err.unwrap` returns Python `None`.  A slot of Python type `Optional[T]`
is embedded as `Option T`, so the dynamic result of `unwrap` on a
`Result[Optional[T], E]` lives in `Option T`. -/

inductive PyResult (α ε : Type) : Type where
  | ok (value : α) : PyResult α ε
  | err (error : ε) : PyResult α ε
deriving DecidableEq

/-- Embeds `Ok.is_ok` (True) and `Err.is_ok` (False). -/
def PyResult.is_ok {α ε : Type} : PyResult α ε → Bool
  | .ok _ => true
  | .err _ => false

/-- Embeds `unwrap` on a result whose success slot is `Optional`:
`Ok.unwrap` returns `self.value`, `Err.unwrap` returns `None`. -/
def PyResult.unwrap {α ε : Type} : PyResult (Option α) ε → Option α
  | .ok v => v
  | .err _ => none

/-! ### Python string primitives used by the orchestrator

ASCII model of `str.lower`, `str.strip`, `str.split` and of the regex
character class `\w` (`re.sub(r'[^\w\s]', '', title)`). -/

/-- Whitespace characters recognised by Python `str.split`/`str.strip`. -/
def isSpaceChar (c : Char) : Bool :=
  c == ' ' || c == '\t' || c == '\n' || c == '\r' || c == '\x0b' || c == '\x0c'

/-- Characters matched by the regex class `\w` (ASCII model). -/
def isWordChar (c : Char) : Bool :=
  c.isAlphanum || c == '_'

/-- Characters kept by `re.sub(r'[^\w\s]', '', _)`. -/
def isKeptChar (c : Char) : Bool :=
  isWordChar c || isSpaceChar c

/-- ASCII model of `str.lower` on one character. -/
def pyLowerChar (c : Char) : Char :=
  if 65 ≤ c.toNat ∧ c.toNat ≤ 90 then Char.ofNat (c.toNat + 32) else c

/-- Embeds `s.lower()`. -/
def pyLower (s : String) : String :=
  ⟨s.data.map pyLowerChar⟩

/-- Embeds `s.strip()`. -/
def pyStrip (s : String) : String :=
  ⟨((s.data.dropWhile isSpaceChar).reverse.dropWhile isSpaceChar).reverse⟩

/-- Worker for `str.split()`: walks the characters keeping the current
word (reversed) in `acc`; whitespace runs separate words, empty words are
never produced. -/
def splitAux : List Char → List Char → List (List Char)
  | [], acc => if acc.isEmpty then [] else [acc.reverse]
  | c :: cs, acc =>
    if isSpaceChar c then
      if acc.isEmpty then splitAux cs [] else acc.reverse :: splitAux cs []
    else
      splitAux cs (c :: acc)

/-- Embeds `s.split()` (split on whitespace runs, no empty chunks). -/
def pySplit (s : List Char) : List (List Char) :=
  splitAux s []

/-- Embeds `' '.join(words)`. -/
def joinWords : List (List Char) → List Char
  | [] => []
  | [w] => w
  | w :: x :: ws => w ++ ' ' :: joinWords (x :: ws)

/-! ### `SearchOrchestrator._normalize_title` (`core/orchestrator.py`) -/

namespace Orchestrator

/-- Stopword set of `_normalize_title`. -/
def stop_words : List String :=
  ["the", "a", "an", "and", "or", "of", "in", "on", "for", "to", "with"]

/-- Membership of one extracted word in the stopword set. -/
def is_stopword (w : List Char) : Bool :=
  stop_words.contains (String.mk w)

/-- Embeds `SearchOrchestrator._normalize_title`: empty guard, lowercase,
strip non-`\w`-non-whitespace characters, collapse whitespace
(`' '.join(title.split())`), drop stopwords, rejoin. -/
def normalize_title (title : String) : String :=
  if title = "" then ""
  else
    let lowered := title.data.map pyLowerChar
    let cleaned := lowered.filter isKeptChar
    let collapsed := joinWords (pySplit cleaned)
    let words := pySplit collapsed
    let kept := words.filter (fun w => !is_stopword w)
    String.mk (joinWords kept)

end Orchestrator

/-! ### Paper model (`backend/models/paper.py`)

Python floats are modelled by rationals. -/

/-- Embeds `AccessType`. -/
inductive AccessType : Type where
  | open_access
  | paywalled
  | unknown
deriving DecidableEq

/-- Embeds `SourceType`. -/
inductive SourceType : Type where
  | peer_reviewed
  | preprint
  | conference
  | thesis
  | book_chapter
  | grey_literature
  | unknown
deriving DecidableEq

/-- Embeds `ReliabilityLevel` (color-coded bands). -/
inductive ReliabilityLevel : Type where
  | high
  | medium
  | low
deriving DecidableEq

/-- Embeds the `ReliabilityScore` dataclass. -/
structure ReliabilityScore : Type where
  peer_review : ℚ := 0
  journal : ℚ := 0
  citations : ℚ := 0
  verification : ℚ := 0
  recency : ℚ := 0
  is_retracted : Bool := false
  contradictions : List String := []
deriving DecidableEq

/-- Embeds the `ReliabilityScore.total` property: retraction override,
then `max(0.0, min(1.0, base - penalty))` with
`penalty = len(contradictions) * 0.05`. -/
def ReliabilityScore.total (s : ReliabilityScore) : ℚ :=
  if s.is_retracted then 0
  else
    let base := s.peer_review + s.journal + s.citations + s.verification + s.recency
    let penalty := (s.contradictions.length : ℚ) * (5 / 100)
    max 0 (min 1 (base - penalty))

/-- Embeds the `ReliabilityScore.level` property. -/
def ReliabilityScore.level (s : ReliabilityScore) : ReliabilityLevel :=
  if s.total ≥ 8 / 10 then .high
  else if s.total ≥ 5 / 10 then .medium
  else .low

/-- Embeds the `Paper` dataclass (the fields consumed by the
orchestrator's dedup/merge/filter pipeline; remaining payload fields are
kept so that `_merge`'s "target wins" default is visible). -/
structure Paper : Type where
  id : String := ""
  title : String := ""
  year : Option Int := none
  journal : Option String := none
  doi : Option String := none
  pmid : Option String := none
  pmcid : Option String := none
  arxiv_id : Option String := none
  abstract : Option String := none
  keywords : List String := []
  citation_count : Int := 0
  reference_count : Int := 0
  access_type : AccessType := .unknown
  pdf_url : Option String := none
  source : String := ""
  source_type : SourceType := .unknown
  sources_found_in : List String := []
  reliability : ReliabilityScore := {}
  urls : List (String × String) := []
  relevance_score : ℚ := 0
deriving DecidableEq

instance : Inhabited Paper := ⟨{}⟩

/-- Embeds the `Paper.reliability_score` property. -/
def Paper.reliability_score (p : Paper) : ℚ :=
  p.reliability.total

/-- Python truthiness of an `Optional[str]` slot: `None` and `""` are
falsy. -/
def truthyStr : Option String → Bool
  | none => false
  | some s => !(s == "")

/-- Python truthiness of an `Optional[int]` slot: `None` and `0` are
falsy. -/
def truthyInt : Option Int → Bool
  | none => false
  | some n => !(n == 0)

/-! ### `SearchOrchestrator._merge` and `_deduplicate` (`core/orchestrator.py`)

Python papers are mutable objects shared between the four dedup maps and
the `unique` list.  The embedding gives every processed paper an index in
an append-only `store` (allocation order = processing order); the maps
and the unique list hold indices, and a merge rewrites the target's slot
in the store. -/

namespace Orchestrator

/-- Append-if-absent loop used by `_merge` for `sources_found_in` and
`keywords` (`for x in source: if x not in target: target.append(x)`). -/
def appendUnion (target source : List String) : List String :=
  source.foldl (fun acc x => if acc.contains x then acc else acc ++ [x]) target

/-- Back-fill rule `if not target.f and source.f: target.f = source.f`
(Python truthiness: `None` and `""` are falsy). -/
def backfill (target source : Option String) : Option String :=
  if !truthyStr target && truthyStr source then source else target

/-- One `dict.update` style insertion: an existing key keeps its position
and gets the new value, a new key is appended. -/
def dictInsert (m : List (String × String)) (k v : String) : List (String × String) :=
  if m.any (fun e => e.1 == k) then m.map (fun e => if e.1 == k then (k, v) else e)
  else m ++ [(k, v)]

/-- Embeds `target.urls.update(source.urls)`. -/
def dictUpdate (target source : List (String × String)) : List (String × String) :=
  source.foldl (fun m e => dictInsert m e.1 e.2) target

/-- Embeds `SearchOrchestrator._merge(target, source)` as a pure function
returning the mutated target. -/
def merge_papers (target source : Paper) : Paper :=
  { target with
    sources_found_in := appendUnion target.sources_found_in source.sources_found_in
    citation_count :=
      if source.citation_count > target.citation_count then source.citation_count
      else target.citation_count
    doi := backfill target.doi source.doi
    pmid := backfill target.pmid source.pmid
    arxiv_id := backfill target.arxiv_id source.arxiv_id
    abstract := backfill target.abstract source.abstract
    keywords := appendUnion target.keywords source.keywords
    urls := dictUpdate target.urls source.urls
    access_type :=
      if source.access_type = AccessType.open_access then AccessType.open_access
      else target.access_type
    pdf_url :=
      if source.access_type = AccessType.open_access && truthyStr source.pdf_url then
        source.pdf_url
      else target.pdf_url }

/-- Dedup key for `paper.doi` (`paper.doi.lower().strip()`). -/
def doiKey (p : Paper) : String := pyStrip (pyLower (p.doi.getD ""))

/-- Dedup key for `paper.pmid` (`paper.pmid.strip()`). -/
def pmidKey (p : Paper) : String := pyStrip (p.pmid.getD "")

/-- Dedup key for `paper.arxiv_id` (`paper.arxiv_id.lower().strip()`). -/
def arxivKey (p : Paper) : String := pyStrip (pyLower (p.arxiv_id.getD ""))

/-- Dedup key for the title map (`self._normalize_title(paper.title)`). -/
def titleKey (p : Paper) : String := normalize_title p.title

/-- State of the `_deduplicate` walk: the object store plus the four
keyed maps (`by_doi`, `by_pmid`, `by_arxiv`, `by_title`, holding store
indices) and the `unique` list of store indices. -/
structure DedupState : Type where
  store : List Paper := []
  by_doi : List (String × Nat) := []
  by_pmid : List (String × Nat) := []
  by_arxiv : List (String × Nat) := []
  by_title : List (String × Nat) := []
  unique : List Nat := []
deriving DecidableEq

/-- Merge the incoming paper `p` into the store slot `t`. -/
def DedupState.mergeAt (st : DedupState) (t : Nat) (p : Paper) : DedupState :=
  { st with store := st.store.set t (merge_papers (st.store.getD t default) p) }

/-- Selector for the four dedup maps, in the priority order of the
source (`by_doi`, `by_pmid`, `by_arxiv`, `by_title`). -/
inductive MapSel : Type where
  | doi
  | pmid
  | arxiv
  | title
deriving DecidableEq

/-- Read the selected map. -/
def DedupState.getMap (st : DedupState) : MapSel → List (String × Nat)
  | .doi => st.by_doi
  | .pmid => st.by_pmid
  | .arxiv => st.by_arxiv
  | .title => st.by_title

/-- Write the selected map. -/
def DedupState.setMap (st : DedupState) : MapSel → List (String × Nat) → DedupState
  | .doi, m => { st with by_doi := m }
  | .pmid, m => { st with by_pmid := m }
  | .arxiv, m => { st with by_arxiv := m }
  | .title, m => { st with by_title := m }

/-- Guard of each probe: `if paper.doi: ...`, `if paper.pmid: ...`,
`if paper.arxiv_id: ...`; the title probe is unguarded. -/
def selGuard : MapSel → Paper → Bool
  | .doi, p => truthyStr p.doi
  | .pmid, p => truthyStr p.pmid
  | .arxiv, p => truthyStr p.arxiv_id
  | .title, _ => true

/-- Key of each probe. -/
def selKey : MapSel → Paper → String
  | .doi, p => doiKey p
  | .pmid, p => pmidKey p
  | .arxiv, p => arxivKey p
  | .title, p => titleKey p

/-- One keyed probe of `_deduplicate`'s loop body: skipped when the
paper is already merged or its guard is falsy; on a map hit, merge into
the canonical record; on a miss, insert the incoming paper's index
(even when a later probe merges it - exactly as in the source, where
`by_doi[key] = paper` runs before the PMID check). -/
def dedup_probe (sel : MapSel) (i : Nat) (p : Paper) :
    DedupState × Bool → DedupState × Bool
  | (st, merged) =>
    if !merged && selGuard sel p then
      match (st.getMap sel).lookup (selKey sel p) with
      | some t => (st.mergeAt t p, true)
      | none => (st.setMap sel ((selKey sel p, i) :: st.getMap sel), false)
    else (st, merged)

/-- One iteration of the `for paper in papers` loop of `_deduplicate`:
append the incoming paper to the store, run the four probes in priority
order threading the `merged` flag, and append the index to `unique`
when no probe merged. -/
def dedup_step (st : DedupState) (p : Paper) : DedupState :=
  let i := st.store.length
  let st0 : DedupState := { st with store := st.store ++ [p] }
  let r :=
    dedup_probe .title i p (dedup_probe .arxiv i p
      (dedup_probe .pmid i p (dedup_probe .doi i p (st0, false))))
  if !r.2 then { r.1 with unique := r.1.unique ++ [i] } else r.1

/-- Embeds `SearchOrchestrator._deduplicate`: fold the loop over the
input and read the unique papers back out of the final store. -/
def deduplicate (papers : List Paper) : List Paper :=
  let st := papers.foldl dedup_step {}
  st.unique.map (fun i => st.store.getD i default)

/-- The three probes that run after the DOI probe, entered unmerged. -/
def laterProbes (i : Nat) (p : Paper) (st : DedupState) : DedupState × Bool :=
  dedup_probe .title i p (dedup_probe .arxiv i p (dedup_probe .pmid i p (st, false)))

end Orchestrator

/-! ### `ArXivAdapter.search` (`adapters/arxiv.py`)

The network-and-parse layer `_search_batch` is abstracted as a `fetch`
oracle from the page's `start` offset to its batch result; `search`'s
paging loop is embedded over it.  The `while len(papers) < max_results`
loop is driven by fuel `max_results + 1`, which over-approximates the
possible number of iterations (every continuing iteration appends a full
batch of at least one paper). -/

namespace ArXiv

/-- Embeds the body of `ArXivAdapter.search`'s `while` loop.  On a batch
error: with accumulated papers return `Ok(papers)`, otherwise propagate
the error.  On an empty batch or a short batch: `break`, i.e. return
`Ok(papers[:max_results])`. -/
def searchLoop (fetch : Nat → PyResult (List Paper) String)
    (batch_size max_results : Nat) :
    Nat → List Paper → Nat → PyResult (List Paper) String
  | 0, papers, _ => .ok (papers.take max_results)
  | fuel + 1, papers, start =>
    if papers.length < max_results then
      match fetch start with
      | .err e => if papers.isEmpty then .err e else .ok papers
      | .ok results =>
        if results.isEmpty then .ok (papers.take max_results)
        else
          let papers' := papers ++ results
          if results.length < batch_size then .ok (papers'.take max_results)
          else searchLoop fetch batch_size max_results fuel papers' (start + batch_size)
    else .ok (papers.take max_results)

/-- Embeds `ArXivAdapter.search`: empty/whitespace query guard, then the
paging loop with `batch_size = min(100, max_results)` starting at offset
0 with no accumulated papers. -/
def search (fetch : Nat → PyResult (List Paper) String) (query : String)
    (max_results : Nat) : PyResult (List Paper) String :=
  if query = "" || pyStrip query = "" then .err "Empty query"
  else searchLoop fetch (min 100 max_results) max_results (max_results + 1) [] 0

/-- Embeds the keyword extraction of `ArXivAdapter._parse_entry`: collect
the truthy `term` attributes of the `<category>` elements and slice
`keywords[:10]` when building the paper. -/
def parse_entry_keywords (terms : List (Option String)) : List String :=
  ((terms.filterMap id).filter (fun t => t ≠ "")).take 10

end ArXiv

/-! ### `TokenBucket` (`utils/rate_limiter.py`)

Wall-clock reads (`time.time()`) are passed in as an explicit `now`;
floats are rationals. -/

/-- Embeds the `TokenBucket` dataclass. -/
structure TokenBucket : Type where
  capacity : ℚ
  tokens : ℚ
  refill_rate : ℚ
  last_refill : ℚ
deriving DecidableEq

/-- Embeds `TokenBucket.refill` at time `now`. -/
def TokenBucket.refill (b : TokenBucket) (now : ℚ) : TokenBucket :=
  { b with
    tokens := min b.capacity (b.tokens + (now - b.last_refill) * b.refill_rate)
    last_refill := now }

/-- Embeds `TokenBucket.take` at time `now`: refill, then either consume
one token (wait 0) or report the wait `(1 - tokens) / refill_rate`. -/
def TokenBucket.take (b : TokenBucket) (now : ℚ) : TokenBucket × ℚ :=
  let b' := b.refill now
  if b'.tokens ≥ 1 then ({ b' with tokens := b'.tokens - 1 }, 0)
  else (b', (1 - b'.tokens) / b'.refill_rate)

/-! ### Post-rank filters of `SearchOrchestrator.search` (`core/orchestrator.py`)

The filter block between ranking and result assembly. -/

namespace Orchestrator

/-- Embeds the filter-relevant slice of `SearchConfig`. -/
structure SearchConfig : Type where
  include_preprints : Bool := true
  min_reliability : ℚ := 0
  year_start : Option Int := none
  year_end : Option Int := none
deriving DecidableEq

/-- Embeds the `# Apply filters` block of `SearchOrchestrator.search`,
in source order: `min_reliability` (guarded by `> 0`), `year_start`
(guarded by truthiness, and testing `p.year and p.year >= year_start`),
`year_end` likewise, then preprint exclusion. -/
def apply_filters (config : SearchConfig) (ranked : List Paper) : List Paper :=
  let r1 :=
    if config.min_reliability > 0 then
      ranked.filter (fun p => p.reliability_score ≥ config.min_reliability)
    else ranked
  let r2 :=
    if truthyInt config.year_start then
      r1.filter (fun p => truthyInt p.year && p.year.getD 0 ≥ config.year_start.getD 0)
    else r1
  let r3 :=
    if truthyInt config.year_end then
      r2.filter (fun p => truthyInt p.year && p.year.getD 0 ≤ config.year_end.getD 0)
    else r2
  if !config.include_preprints then
    r3.filter (fun p => p.source_type ≠ SourceType.preprint)
  else r3

/-- Claimed final-list filter, written from the spec's words for
comparison with `apply_filters`: first the inclusive year range, where a
paper with no year is dropped whenever `year_start` or `year_end` is
set (i.e. is `some`), then dropping papers with reliability total below
`min_reliability`, then dropping preprints when `include_preprints` is
false. -/
def claimed_filters (config : SearchConfig) (ranked : List Paper) : List Paper :=
  let s1 := ranked.filter (fun p =>
    (config.year_start.isNone ||
      (p.year.isSome && p.year.getD 0 ≥ config.year_start.getD 0)) &&
    (config.year_end.isNone ||
      (p.year.isSome && p.year.getD 0 ≤ config.year_end.getD 0)))
  let s2 := s1.filter (fun p => p.reliability_score ≥ config.min_reliability)
  if !config.include_preprints then
    s2.filter (fun p => p.source_type ≠ SourceType.preprint)
  else s2

/-- Amended final-list filter, also in the claim's phase order but with
Python truthiness made explicit: a year bound set to `0` acts as unset,
and a paper whose year is missing *or zero* is dropped whenever a
nonzero bound is set. -/
def amended_filters (config : SearchConfig) (ranked : List Paper) : List Paper :=
  let s1 := ranked.filter (fun p =>
    (!truthyInt config.year_start ||
      (truthyInt p.year && p.year.getD 0 ≥ config.year_start.getD 0)) &&
    (!truthyInt config.year_end ||
      (truthyInt p.year && p.year.getD 0 ≤ config.year_end.getD 0)))
  let s2 := s1.filter (fun p => p.reliability_score ≥ config.min_reliability)
  if !config.include_preprints then
    s2.filter (fun p => p.source_type ≠ SourceType.preprint)
  else s2

end Orchestrator

/-! ### Claim-level definitions and concrete inputs -/

namespace Orchestrator

/-- Invariant carried through `_deduplicate`: every unique index is in
range, unique indices are distinct, and the title map sends each unique
paper's normalized title back to its own index. -/
def TitleInv (st : DedupState) : Prop :=
  (∀ j ∈ st.unique, j < st.store.length) ∧
  st.unique.Nodup ∧
  (∀ j ∈ st.unique,
    st.by_title.lookup (titleKey (st.store.getD j default)) = some j)

/-- Bool pairwise check over a list. -/
def pairwiseB (f : Paper → Paper → Bool) : List Paper → Bool
  | [] => true
  | p :: ps => ps.all (f p) && pairwiseB f ps

/-- One pair of the claimed post-dedup invariant: whenever both papers
have a (truthy) DOI their dedup keys differ, same for PMID and arXiv id,
and their normalized titles differ. -/
def distinct_keys_pair (p q : Paper) : Bool :=
  (!(truthyStr p.doi && truthyStr q.doi) || (doiKey p != doiKey q)) &&
  ((!(truthyStr p.pmid && truthyStr q.pmid) || (pmidKey p != pmidKey q)) &&
  ((!(truthyStr p.arxiv_id && truthyStr q.arxiv_id) || (arxivKey p != arxivKey q)) &&
  (titleKey p != titleKey q)))

/-- The claimed invariant of C1, written from the spec's words: all four
identifier keys pairwise differ across the deduplicated list. -/
def distinct_keys_claim (l : List Paper) : Bool :=
  pairwiseB distinct_keys_pair l

/-- DOI-map invariant of `_deduplicate`: every registered entry points at
an in-range stored paper that still carries a truthy DOI with that key
(`_merge` never overwrites a truthy DOI); every unique paper with a
truthy DOI has its key registered; and unique papers with truthy DOIs
have pairwise distinct DOI keys. -/
def DoiInv (st : DedupState) : Prop :=
  (∀ e ∈ st.by_doi, e.2 < st.store.length ∧
    truthyStr (st.store.getD e.2 default).doi = true ∧
    doiKey (st.store.getD e.2 default) = e.1) ∧
  (∀ i ∈ st.unique, truthyStr (st.store.getD i default).doi = true →
    ∃ r, st.by_doi.lookup (doiKey (st.store.getD i default)) = some r) ∧
  (∀ i ∈ st.unique, ∀ j ∈ st.unique,
    truthyStr (st.store.getD i default).doi = true →
    truthyStr (st.store.getD j default).doi = true →
    doiKey (st.store.getD i default) = doiKey (st.store.getD j default) → i = j)

/-- Pair relation of the amended C1: normalized titles differ, and when
both papers carry a truthy DOI, their lowercased-trimmed DOI keys
differ. -/
def title_doi_distinct (p q : Paper) : Bool :=
  (titleKey p != titleKey q) &&
  (!(truthyStr p.doi && truthyStr q.doi) || (doiKey p != doiKey q))

/-- None of the incoming paper's keys is already present in the state's
maps. -/
def KeysFresh (st : DedupState) (p : Paper) : Prop :=
  (truthyStr p.doi = true → st.by_doi.lookup (doiKey p) = none) ∧
  (truthyStr p.pmid = true → st.by_pmid.lookup (pmidKey p) = none) ∧
  (truthyStr p.arxiv_id = true → st.by_arxiv.lookup (arxivKey p) = none) ∧
  st.by_title.lookup (titleKey p) = none

end Orchestrator

def c6_config : Orchestrator.SearchConfig := { year_start := some 0 }

def c6_papers : List Paper := [{ id := "p", title := "t" }]

def c7_papers : List Paper :=
  [{ id := "k1", title := "t one", doi := some "10.1/d",
     keywords := ["a1", "a2", "a3", "a4", "a5", "a6", "a7", "a8", "a9", "a10"] },
   { id := "k2", title := "t two", doi := some "10.1/d",
     keywords := ["b1", "b2", "b3", "b4", "b5", "b6", "b7", "b8", "b9", "b10"] }]

def c1_papers : List Paper :=
  [{ id := "a", title := "alpha beta", doi := some "10.1/x", sources_found_in := ["A"] },
   { id := "b", title := "gamma delta", pmid := some "123", sources_found_in := ["B"] },
   { id := "c", title := "epsilon zeta", doi := some "10.1/x", pmid := some "123",
     sources_found_in := ["C"] }]

def c4_papers : List Paper :=
  [{ id := "a2", title := "alpha beta", doi := some "10.1/x", sources_found_in := ["A"] },
   { id := "b2", title := "gamma delta", pmid := some "123", sources_found_in := ["B"] },
   { id := "c2", title := "epsilon zeta", doi := some "10.1/x", pmid := some "123",
     sources_found_in := ["C"] }]

def c4_witness_papers : List Paper :=
  [{ id := "w1", title := "quantum entanglement", doi := some "10.9/qe" },
   { id := "w2", title := "protein folding", pmid := some "777" }]

def c3_p1 : Paper := { id := "q1", title := "Same Title", doi := some "10.1/a" }

def c3_p2 : Paper := { id := "q2", title := "The Same Title!", doi := some "10.1/b" }

def c3_w1 : Paper := { id := "w3", title := "Deep Learning Methods", doi := some "10.2/x" }

def c3_w2 : Paper := { id := "w4", title := "The Deep Learning Methods", doi := some "10.2/y" }


/-! ## Helper lemmas -/

theorem lookup_cons_eq (m : List (String × Nat)) (k : String) (v : Nat) :
    ((k, v) :: m).lookup k = some v := by
  simp [List.lookup]

theorem lookup_cons_ne (m : List (String × Nat)) (k k' : String) (v : Nat) (h : k' ≠ k) :
    ((k, v) :: m).lookup k' = m.lookup k' := by
  simp [List.lookup, beq_false_of_ne h]

theorem reliability_total_nonneg (s : ReliabilityScore) : 0 ≤ s.total := by
  rw [ReliabilityScore.total]
  split
  · exact le_refl 0
  · exact le_max_left 0 _

theorem reliability_total_le_one (s : ReliabilityScore) : s.total ≤ 1 := by
  rw [ReliabilityScore.total]
  split
  · norm_num
  · exact max_le (by norm_num) (min_le_left 1 _)

/-! ## C2 : reliability total formula and bounds -/

/-- C2: for every `ReliabilityScore`, if `is_retracted` then `total = 0`
regardless of the components; otherwise
`total = max(0, min(1, peer_review + journal + citations + verification
+ recency - 0.05 * len(contradictions)))`; and `total` always lies in
`[0, 1]`. -/
theorem reliability_total_spec (s : ReliabilityScore) :
    s.total = (if s.is_retracted then 0
      else max 0 (min 1 (s.peer_review + s.journal + s.citations + s.verification + s.recency
        - (s.contradictions.length : ℚ) * (5 / 100)))) ∧
    0 ≤ s.total ∧ s.total ≤ 1 :=
  ⟨rfl, reliability_total_nonneg s, reliability_total_le_one s⟩

/-! ## C9 : token bucket take -/

/-- C9: for every bucket state with `capacity = refill_rate` and every
`now ≥ last_refill` (positive rate), `take` first refills to
`min(capacity, tokens + (now - last_refill) * refill_rate)`; if the
refilled amount is `≥ 1` it subtracts one token and returns wait `0`,
otherwise it leaves the refilled amount in place and returns wait
`(1 - tokens) / refill_rate`. -/
theorem token_bucket_take_spec (b : TokenBucket) (now : ℚ)
    (hcap : b.capacity = b.refill_rate) (hnow : b.last_refill ≤ now)
    (hrate : 0 < b.refill_rate) :
    (1 ≤ min b.capacity (b.tokens + (now - b.last_refill) * b.refill_rate) →
      b.take now =
        ({ b with
            tokens := min b.capacity (b.tokens + (now - b.last_refill) * b.refill_rate) - 1,
            last_refill := now }, 0)) ∧
    (min b.capacity (b.tokens + (now - b.last_refill) * b.refill_rate) < 1 →
      b.take now =
        ({ b with
            tokens := min b.capacity (b.tokens + (now - b.last_refill) * b.refill_rate),
            last_refill := now },
          (1 - min b.capacity (b.tokens + (now - b.last_refill) * b.refill_rate))
            / b.refill_rate)) := by
  constructor
  · intro h
    rw [TokenBucket.take]
    rw [if_pos (show (TokenBucket.refill b now).tokens ≥ 1 from h)]
    rfl
  · intro h
    rw [TokenBucket.take]
    rw [if_neg (show ¬(TokenBucket.refill b now).tokens ≥ 1 from not_le.mpr h)]
    rfl

/-- Witness for C9 at a concrete bucket: capacity = rate = 2, half a
token left, one second elapsed; the bucket refills to capacity and a
token is taken with zero wait. -/
theorem token_bucket_take_spec_witness :
    (TokenBucket.mk 2 (1/2) 2 0).capacity = (TokenBucket.mk 2 (1/2) 2 0).refill_rate ∧
    (TokenBucket.mk 2 (1/2) 2 0).last_refill ≤ 1 ∧
    0 < (TokenBucket.mk 2 (1/2) 2 0).refill_rate ∧
    (TokenBucket.mk 2 (1/2) 2 0).take 1 = (TokenBucket.mk 2 1 2 1, 0) := by
  refine ⟨rfl, by norm_num, by norm_num, ?_⟩
  have h := (token_bucket_take_spec (TokenBucket.mk 2 (1/2) 2 0) 1 rfl (by norm_num)
    (by norm_num)).1 (by norm_num)
  rw [h]
  norm_num

/-! ## C10 : Err.unwrap returns None -/

/-- C10: `Err(e).unwrap()` is `None` for every error `e` - the caller
that skips `is_ok` receives `None`, indistinguishable from a successful
`Ok(None)` (whose `unwrap` is also `None`); and `is_ok` is what tells
the two apart. -/
theorem err_unwrap_is_none (e : String) :
    (PyResult.err e : PyResult (Option String) String).unwrap = none ∧
    (PyResult.ok (none : Option String) : PyResult (Option String) String).unwrap = none ∧
    (PyResult.err e : PyResult (Option String) String).unwrap
      = (PyResult.ok (none : Option String) : PyResult (Option String) String).unwrap ∧
    (PyResult.err e : PyResult (Option String) String).is_ok = false :=
  ⟨rfl, rfl, rfl, rfl⟩

/-! ## C5 : adapter paging error policy -/

theorem searchLoop_err_code (fetch : Nat → PyResult (List Paper) String) (bs mr : Nat) :
    ∀ (fuel : Nat) (papers : List Paper) (start : Nat) (e : String),
      ArXiv.searchLoop fetch bs mr fuel papers start = .err e →
      papers = [] ∧ fetch start = .err e := by
  intro fuel
  induction fuel with
  | zero =>
    intro papers start e h
    exact absurd h (by simp [ArXiv.searchLoop])
  | succ n ih =>
    intro papers start e h
    rw [ArXiv.searchLoop] at h
    split at h
    · split at h
      · next e' heq =>
        split at h
        · next hp =>
          cases h
          exact ⟨List.isEmpty_iff.mp hp, heq⟩
        · exact absurd h (by simp)
      · next results heq =>
        split at h
        · exact absurd h (by simp)
        · next hne =>
          split at h
          · exact absurd h (by simp)
          · have h2 := ih _ _ _ h
            have : results = [] := (List.append_eq_nil.mp h2.1).2
            rw [this] at hne
            simp at hne
    · exact absurd h (by simp)

/-- C5: over a non-empty query (and a positive `max_results`, so that a
first page is fetched at all): an error on the first page is returned
as the adapter's error; conversely `search` can fail only that way, so
an error on a page after at least one successfully fetched page never
yields a failure; and concretely, when the first page returns a full
batch and the second page errors, `search` returns `Ok` of the papers
accumulated from the first page. -/
theorem arxiv_search_error_policy (fetch : Nat → PyResult (List Paper) String)
    (query : String) (mr : Nat) (hq : pyStrip query ≠ "") (hmr : 0 < mr) :
    (∀ e, fetch 0 = .err e → ArXiv.search fetch query mr = .err e) ∧
    (∀ e, ArXiv.search fetch query mr = .err e → fetch 0 = .err e) ∧
    (∀ r0 e, fetch 0 = .ok r0 → r0.length = min 100 mr → min 100 mr < mr →
      fetch (min 100 mr) = .err e → ArXiv.search fetch query mr = .ok r0) := by
  have hq' : query ≠ "" := by
    intro h
    exact hq (by rw [h]; rfl)
  refine ⟨?_, ?_, ?_⟩
  · intro e hf
    rw [ArXiv.search, if_neg (by simp [hq, hq'])]
    rw [ArXiv.searchLoop]
    rw [if_pos (by simpa using hmr), hf]
    rfl
  · intro e h
    rw [ArXiv.search, if_neg (by simp [hq, hq'])] at h
    exact (searchLoop_err_code fetch _ mr _ [] 0 e h).2
  · intro r0 e hf0 hlen hbs hf1
    obtain ⟨k, rfl⟩ : ∃ k, mr = k + 1 := ⟨mr - 1, by omega⟩
    have hr0ne : r0.isEmpty = false := by
      rw [List.isEmpty_eq_false_iff_exists_mem]
      cases r0 with
      | nil => simp at hlen; omega
      | cons a l => exact ⟨a, List.mem_cons_self a l⟩
    have hfull : ¬ (r0.length < 100 ⊓ (k + 1)) := by omega
    rw [ArXiv.search, if_neg (by simp [hq, hq'])]
    rw [ArXiv.searchLoop]
    rw [if_pos (by simp)]
    rw [hf0]
    simp only [hr0ne, Bool.false_eq_true, if_false, if_neg hfull, List.nil_append]
    rw [ArXiv.searchLoop]
    rw [if_pos (by omega), Nat.zero_add, hf1]
    simp [hr0ne]

/-- Witness for C5. -/
theorem arxiv_search_error_policy_witness :
    pyStrip "x" ≠ "" ∧ 0 < 101 ∧
    ArXiv.search
      (fun s => if s = 0 then .ok (List.replicate 100 ({} : Paper)) else .err "page failure")
      "x" 101 = .ok (List.replicate 100 ({} : Paper)) := by
  refine ⟨by decide, by decide, ?_⟩
  exact (arxiv_search_error_policy _ "x" 101 (by decide) (by decide)).2.2
    (List.replicate 100 ({} : Paper)) "page failure" rfl (by simp) (by decide) rfl

theorem filter_stage_rel (c : ℚ) (l : List Paper) :
    (if c > 0 then l.filter (fun p => p.reliability_score ≥ c) else l)
      = l.filter (fun p => p.reliability_score ≥ c) := by
  split
  · rfl
  · next h =>
    symm
    apply List.filter_eq_self.mpr
    intro p _
    have h0 := reliability_total_nonneg p.reliability
    have hc : c ≤ 0 := not_lt.mp h
    simp only [decide_eq_true_eq, ge_iff_le]
    exact le_trans hc h0

theorem filter_stage_opt (b : Bool) (q : Paper → Bool) (l : List Paper) :
    (if b then l.filter q else l) = l.filter (fun p => !b || q p) := by
  cases b
  · simp
  · simp

theorem orchestrator_filters_claim_counterexample :
    Orchestrator.apply_filters c6_config c6_papers ≠
      Orchestrator.claimed_filters c6_config c6_papers := by decide

theorem cond_filter_chain (l : List Paper) (g1 g2 g3 g4 : Bool)
    (p1 p2 p3 p4 : Paper → Bool) :
    (let r1 := if g1 then l.filter p1 else l
     let r2 := if g2 then r1.filter p2 else r1
     let r3 := if g3 then r2.filter p3 else r2
     if g4 then r3.filter p4 else r3)
      = l.filter (fun p => (!g1 || p1 p) && ((!g2 || p2 p) && ((!g3 || p3 p) && (!g4 || p4 p)))) := by
  cases g1 <;> cases g2 <;> cases g3 <;> cases g4 <;>
    simp [List.filter_filter, Bool.and_comm, Bool.and_left_comm, Bool.and_assoc]

theorem apply_filters_eq_amended (config : Orchestrator.SearchConfig) (ranked : List Paper) :
    Orchestrator.apply_filters config ranked
      = Orchestrator.amended_filters config ranked := by
  refine Eq.trans (cond_filter_chain ranked _ _ _ _ _ _ _ _)
    (Eq.trans ?_ (cond_filter_chain ranked true true false (!config.include_preprints)
      (fun p =>
        (!truthyInt config.year_start ||
          (truthyInt p.year && decide (p.year.getD 0 ≥ config.year_start.getD 0))) &&
        (!truthyInt config.year_end ||
          (truthyInt p.year && decide (p.year.getD 0 ≤ config.year_end.getD 0))))
      (fun p => decide (p.reliability_score ≥ config.min_reliability))
      (fun _ => true)
      (fun p => decide (p.source_type ≠ SourceType.preprint))).symm)
  apply List.filter_congr
  intro p _
  cases hblt : Rat.blt 0 config.min_reliability with
  | true =>
    simp only [Bool.not_true, Bool.false_or, Bool.not_false, Bool.true_or, Bool.true_and]
    cases decide (p.reliability_score ≥ config.min_reliability) <;>
      cases (!truthyInt config.year_start ||
        (truthyInt p.year && decide (p.year.getD 0 ≥ config.year_start.getD 0))) <;>
      cases (!truthyInt config.year_end ||
        (truthyInt p.year && decide (p.year.getD 0 ≤ config.year_end.getD 0))) <;>
      cases (!!config.include_preprints || decide (p.source_type ≠ SourceType.preprint)) <;>
      rfl
  | false =>
    have hnlt : ¬ (0 < config.min_reliability) := by
      intro h
      have h' : Rat.blt 0 config.min_reliability = true := h
      rw [h'] at hblt
      simp at hblt
    have hrel : decide (p.reliability_score ≥ config.min_reliability) = true := by
      apply decide_eq_true
      have h0 := reliability_total_nonneg p.reliability
      exact le_trans (not_lt.mp hnlt) h0
    simp only [hrel, Bool.not_false, Bool.true_or, Bool.not_true, Bool.false_or, Bool.true_and]
    cases (!truthyInt config.year_start ||
        (truthyInt p.year && decide (p.year.getD 0 ≥ config.year_start.getD 0))) <;>
      cases (!truthyInt config.year_end ||
        (truthyInt p.year && decide (p.year.getD 0 ≤ config.year_end.getD 0))) <;>
      cases (!!config.include_preprints || decide (p.source_type ≠ SourceType.preprint)) <;>
      rfl

/-! ## C7 : keyword cap -/

theorem appendUnion_length (target source : List String) :
    (Orchestrator.appendUnion target source).length ≤ target.length + source.length := by
  induction source generalizing target with
  | nil => simp [Orchestrator.appendUnion]
  | cons x s ih =>
    rw [Orchestrator.appendUnion, List.foldl_cons]
    have step := ih (if target.contains x then target else target ++ [x])
    rw [Orchestrator.appendUnion] at step
    refine le_trans step ?_
    by_cases h : target.contains x = true
    · rw [if_pos h]
      simp only [List.length_cons]
      omega
    · rw [if_neg h]
      simp only [List.length_append, List.length_cons, List.length_nil]
      omega

/-- Counterexample to C7: both input papers respect the 10-keyword cap
(as adapter parsers guarantee), yet after `_deduplicate`'s merge the
surviving paper carries 20 keywords. -/
theorem keywords_cap_counterexample :
    (∀ p ∈ c7_papers, p.keywords.length ≤ 10) ∧
    (∃ p ∈ Orchestrator.deduplicate c7_papers, 10 < p.keywords.length) := by
  constructor
  · decide
  · refine ⟨(Orchestrator.deduplicate c7_papers).head (by decide), ?_, ?_⟩ <;> decide

/-- Amended C7: adapter parsers do cap keywords at 10 (`keywords[:10]`
in `ArXivAdapter._parse_entry`), but `_merge` unions keyword lists with
no re-capping, so a merged paper's keyword count is only bounded by the
sum of its constituents' counts. -/
theorem keywords_parser_cap_merge_union :
    (∀ terms : List (Option String), (ArXiv.parse_entry_keywords terms).length ≤ 10) ∧
    (∀ t s : Paper,
      (Orchestrator.merge_papers t s).keywords.length ≤ t.keywords.length + s.keywords.length) := by
  constructor
  · intro terms
    exact List.length_take_le 10 _
  · intro t s
    exact appendUnion_length t.keywords s.keywords

/-! ## Dedup machinery : probe lemmas -/

namespace Orchestrator

theorem merge_papers_title (t s : Paper) : (merge_papers t s).title = t.title := rfl

theorem dedup_probe_merged (sel : MapSel) (i : Nat) (p : Paper) (st : DedupState) :
    dedup_probe sel i p (st, true) = (st, true) := rfl

theorem dedup_probe_unique (sel : MapSel) (i : Nat) (p : Paper) (s : DedupState × Bool) :
    (dedup_probe sel i p s).1.unique = s.1.unique := by
  obtain ⟨st, m⟩ := s
  rw [dedup_probe]
  split
  · split
    · rfl
    · cases sel <;> rfl
  · rfl

theorem dedup_probe_store (sel : MapSel) (i : Nat) (p : Paper) (st : DedupState) (m : Bool) :
    (dedup_probe sel i p (st, m)).1.store = st.store ∨
    ∃ t, (dedup_probe sel i p (st, m)).1.store
        = st.store.set t (merge_papers (st.store.getD t default) p) := by
  rw [dedup_probe]
  split
  · split
    · next t heq => exact Or.inr ⟨t, rfl⟩
    · left
      cases sel <;> rfl
  · left
    rfl

theorem dedup_probe_store_length (sel : MapSel) (i : Nat) (p : Paper) (st : DedupState)
    (m : Bool) :
    (dedup_probe sel i p (st, m)).1.store.length = st.store.length := by
  rcases dedup_probe_store sel i p st m with h | ⟨t, h⟩ <;> rw [h] <;> simp

theorem dedup_probe_store_titleKey (sel : MapSel) (i : Nat) (p : Paper) (st : DedupState)
    (m : Bool) (j : Nat) :
    titleKey ((dedup_probe sel i p (st, m)).1.store.getD j default)
      = titleKey (st.store.getD j default) := by
  rcases dedup_probe_store sel i p st m with h | ⟨t, h⟩
  · rw [h]
  · rw [h]
    by_cases hj : j = t
    · subst hj
      by_cases hlt : j < st.store.length
      · rw [List.getD_eq_getElem?_getD, List.getElem?_set_self (by omega),
          List.getD_eq_getElem?_getD]
        cases hg : st.store[j]? with
        | none => exact absurd hg (by simp; omega)
        | some v =>
          simp only [Option.map_some, Option.getD_some]
          simp [titleKey, merge_papers_title]
      · rw [List.set_eq_of_length_le (by omega)]
    · rw [List.getD_eq_getElem?_getD, List.getElem?_set_ne (by omega),
        List.getD_eq_getElem?_getD]

end Orchestrator

namespace Orchestrator

@[simp] theorem getMap_doi (st : DedupState) : st.getMap .doi = st.by_doi := rfl

@[simp] theorem getMap_pmid (st : DedupState) : st.getMap .pmid = st.by_pmid := rfl

@[simp] theorem getMap_arxiv (st : DedupState) : st.getMap .arxiv = st.by_arxiv := rfl

@[simp] theorem getMap_title (st : DedupState) : st.getMap .title = st.by_title := rfl

@[simp] theorem selKey_doi (p : Paper) : selKey .doi p = doiKey p := rfl

@[simp] theorem selKey_pmid (p : Paper) : selKey .pmid p = pmidKey p := rfl

@[simp] theorem selKey_arxiv (p : Paper) : selKey .arxiv p = arxivKey p := rfl

@[simp] theorem selKey_title (p : Paper) : selKey .title p = titleKey p := rfl

@[simp] theorem selGuard_doi (p : Paper) : selGuard .doi p = truthyStr p.doi := rfl

@[simp] theorem selGuard_pmid (p : Paper) : selGuard .pmid p = truthyStr p.pmid := rfl

@[simp] theorem selGuard_arxiv (p : Paper) : selGuard .arxiv p = truthyStr p.arxiv_id := rfl

@[simp] theorem selGuard_title (p : Paper) : selGuard .title p = true := rfl

theorem dedup_probe_by_title_ne (sel : MapSel) (i : Nat) (p : Paper) (st : DedupState)
    (m : Bool) (hsel : sel ≠ .title) :
    (dedup_probe sel i p (st, m)).1.by_title = st.by_title := by
  rw [dedup_probe]
  split
  · split
    · rfl
    · cases sel with
      | doi => rfl
      | pmid => rfl
      | arxiv => rfl
      | title => exact absurd rfl hsel
  · rfl

theorem dedup_probe_title_by_title (i : Nat) (p : Paper) (st : DedupState) (m : Bool) :
    (dedup_probe .title i p (st, m)).1.by_title = st.by_title ∨
    (st.by_title.lookup (titleKey p) = none ∧
      (dedup_probe .title i p (st, m)).1.by_title = (titleKey p, i) :: st.by_title) := by
  cases m
  · rw [dedup_probe]
    simp only [Bool.not_false, Bool.true_and, selGuard_title, if_true, getMap_title,
      selKey_title]
    cases hl : st.by_title.lookup (titleKey p) with
    | some t =>
      simp only [hl]
      exact Or.inl rfl
    | none =>
      simp only [hl]
      exact Or.inr ⟨trivial, rfl⟩
  · rw [dedup_probe_merged]
    exact Or.inl rfl

theorem dedup_probe_false_of_false (sel : MapSel) (i : Nat) (p : Paper)
    (s : DedupState × Bool) (h : (dedup_probe sel i p s).2 = false) : s.2 = false := by
  obtain ⟨st, m⟩ := s
  cases m
  · rfl
  · rw [dedup_probe_merged] at h
    exact absurd h (by simp)

theorem dedup_probe_nomerge_store (sel : MapSel) (i : Nat) (p : Paper) (st : DedupState)
    (h : (dedup_probe sel i p (st, false)).2 = false) :
    (dedup_probe sel i p (st, false)).1.store = st.store := by
  rw [dedup_probe] at h ⊢
  cases hg : (!false && selGuard sel p) with
  | false =>
    simp only [hg, Bool.false_eq_true, if_false]
  | true =>
    simp only [hg, if_true] at h ⊢
    cases hl : (st.getMap sel).lookup (selKey sel p) with
    | some t =>
      simp only [hl] at h
      exact Bool.noConfusion h
    | none =>
      simp only [hl]
      cases sel <;> rfl

theorem dedup_probe_title_nomerge (i : Nat) (p : Paper) (st : DedupState)
    (h : (dedup_probe .title i p (st, false)).2 = false) :
    st.by_title.lookup (titleKey p) = none ∧
    (dedup_probe .title i p (st, false)).1
      = { st with by_title := (titleKey p, i) :: st.by_title } := by
  rw [dedup_probe] at h ⊢
  simp only [Bool.not_false, Bool.true_and, selGuard_title, if_true, getMap_title,
    selKey_title] at h ⊢
  cases hl : st.by_title.lookup (titleKey p) with
  | some t =>
    simp only [hl] at h
    exact Bool.noConfusion h
  | none =>
    simp only [hl]
    exact ⟨trivial, rfl⟩

theorem dedup_probe_nomerge_store_pair (sel : MapSel) (i : Nat) (p : Paper)
    (s : DedupState × Bool) (hs : s.2 = false)
    (h : (dedup_probe sel i p s).2 = false) :
    (dedup_probe sel i p s).1.store = s.1.store := by
  obtain ⟨st, m⟩ := s
  cases m
  · exact dedup_probe_nomerge_store sel i p st h
  · exact Bool.noConfusion hs

theorem dedup_probe_title_nomerge_pair (i : Nat) (p : Paper) (s : DedupState × Bool)
    (hs : s.2 = false) (h : (dedup_probe .title i p s).2 = false) :
    s.1.by_title.lookup (titleKey p) = none ∧
    (dedup_probe .title i p s).1
      = { s.1 with by_title := (titleKey p, i) :: s.1.by_title } := by
  obtain ⟨st, m⟩ := s
  cases m
  · exact dedup_probe_title_nomerge i p st h
  · exact Bool.noConfusion hs

end Orchestrator


namespace Orchestrator

theorem titleInv_probe (sel : MapSel) (i : Nat) (p : Paper) (s : DedupState × Bool)
    (h : TitleInv s.1) : TitleInv (dedup_probe sel i p s).1 := by
  obtain ⟨st, m⟩ := s
  obtain ⟨hb, hnd, hlk⟩ := h
  refine ⟨?_, ?_, ?_⟩
  · intro j hj
    rw [dedup_probe_unique] at hj
    rw [dedup_probe_store_length]
    exact hb j hj
  · rw [dedup_probe_unique]
    exact hnd
  · intro j hj
    rw [dedup_probe_unique] at hj
    rw [dedup_probe_store_titleKey]
    by_cases hsel : sel = .title
    · subst hsel
      rcases dedup_probe_title_by_title i p st m with heq | ⟨hnone, heq⟩
      · rw [heq]
        exact hlk j hj
      · rw [heq]
        have hkey : titleKey (st.store.getD j default) ≠ titleKey p := by
          intro hk
          have := hlk j hj
          rw [hk, hnone] at this
          exact Option.noConfusion this
        rw [lookup_cons_ne _ _ _ _ hkey]
        exact hlk j hj
    · rw [dedup_probe_by_title_ne sel i p st m hsel]
      exact hlk j hj

theorem titleInv_step (st : DedupState) (p : Paper) (h : TitleInv st) :
    TitleInv (dedup_step st p) := by
  obtain ⟨hb, hnd, hlk⟩ := h
  have h0 : TitleInv { st with store := st.store ++ [p] } := by
    refine ⟨?_, hnd, ?_⟩
    · intro j hj
      simp only [List.length_append, List.length_cons, List.length_nil]
      exact lt_trans (hb j hj) (by omega)
    · intro j hj
      have hjlt := hb j hj
      have hgd : (st.store ++ [p]).getD j default = st.store.getD j default := by
        simp [List.getD_eq_getElem?_getD, List.getElem?_append, hjlt]
      show List.lookup (titleKey ((st.store ++ [p]).getD j default)) st.by_title = some j
      rw [hgd]
      exact hlk j hj
  rw [dedup_step]
  set st0 : DedupState := { st with store := st.store ++ [p] } with hst0
  set r := dedup_probe .title st.store.length p (dedup_probe .arxiv st.store.length p
    (dedup_probe .pmid st.store.length p
      (dedup_probe .doi st.store.length p (st0, false)))) with hr
  have h4 : TitleInv r.1 := by
    rw [hr]
    exact titleInv_probe _ _ _ _ (titleInv_probe _ _ _ _ (titleInv_probe _ _ _ _
      (titleInv_probe _ _ _ _ h0)))
  cases hm : r.2 with
  | true =>
    simp only [hm, Bool.not_true, Bool.false_eq_true, if_false]
    exact h4
  | false =>
    simp only [hm, Bool.not_false, if_true]
    obtain ⟨hb4, hnd4, hlk4⟩ := h4
    -- unwind the no-merge path
    have h3f : (dedup_probe .arxiv st.store.length p (dedup_probe .pmid st.store.length p
        (dedup_probe .doi st.store.length p (st0, false)))).2 = false :=
      dedup_probe_false_of_false .title _ _ _ hm
    have h2f : (dedup_probe .pmid st.store.length p
        (dedup_probe .doi st.store.length p (st0, false))).2 = false :=
      dedup_probe_false_of_false .arxiv _ _ _ h3f
    have h1f : (dedup_probe .doi st.store.length p (st0, false)).2 = false :=
      dedup_probe_false_of_false .pmid _ _ _ h2f
    have hs1 : (dedup_probe .doi st.store.length p (st0, false)).1.store = st0.store :=
      dedup_probe_nomerge_store .doi _ _ _ h1f
    have hs2 : (dedup_probe .pmid st.store.length p
        (dedup_probe .doi st.store.length p (st0, false))).1.store = st0.store := by
      rw [← hs1]
      exact dedup_probe_nomerge_store_pair .pmid _ _ _ h1f h2f
    have hs3 : (dedup_probe .arxiv st.store.length p (dedup_probe .pmid st.store.length p
        (dedup_probe .doi st.store.length p (st0, false)))).1.store = st0.store := by
      rw [← hs2]
      exact dedup_probe_nomerge_store_pair .arxiv _ _ _ h2f h3f
    have hs4 : r.1.store = st0.store := by
      rw [hr, ← hs3]
      exact dedup_probe_nomerge_store_pair .title _ _ _ h3f (hr ▸ hm)
    have hlen4 : r.1.store.length = st.store.length + 1 := by
      rw [hs4, hst0]
      simp
    have hru : r.1.unique = st.unique := by
      rw [hr]
      rw [dedup_probe_unique, dedup_probe_unique, dedup_probe_unique, dedup_probe_unique]
    have hnotin : st.store.length ∉ r.1.unique := by
      rw [hru]
      intro hmem
      exact absurd (hb _ hmem) (by omega)
    refine ⟨?_, ?_, ?_⟩
    · intro j hj
      simp only [List.mem_append, List.mem_singleton] at hj
      rcases hj with hj | hj
      · exact hb4 j hj
      · subst hj
        show st.store.length < r.1.store.length
        omega
    · show (r.1.unique ++ [st.store.length]).Nodup
      rw [List.nodup_append]
      refine ⟨hnd4, List.nodup_singleton _, ?_⟩
      intro a ha hmem
      rw [List.mem_singleton] at hmem
      subst hmem
      exact hnotin ha
    · intro j hj
      simp only [List.mem_append, List.mem_singleton] at hj
      rcases hj with hj | hj
      · exact hlk4 j hj
      · subst hj
        -- the new index: its store slot holds `p` and the title map of the
        -- result starts with `p`'s key pointing at it
        obtain ⟨hnone, heq⟩ :=
          dedup_probe_title_nomerge_pair st.store.length p _ h3f (hr ▸ hm)
        have hslot : r.1.store.getD st.store.length default = p := by
          rw [hs4]
          show (st.store ++ [p]).getD st.store.length default = p
          simp [List.getD_eq_getElem?_getD, List.getElem?_append_right (Nat.le_refl _)]
        have hbt : r.1.by_title
            = (titleKey p, st.store.length) :: (dedup_probe .arxiv st.store.length p
              (dedup_probe .pmid st.store.length p
                (dedup_probe .doi st.store.length p (st0, false)))).1.by_title := by
          rw [hr, heq]
        rw [hslot, hbt]
        exact lookup_cons_eq _ _ _

end Orchestrator

namespace Orchestrator

theorem titleInv_fold (L : List Paper) :
    ∀ st : DedupState, TitleInv st → TitleInv (L.foldl dedup_step st) := by
  induction L with
  | nil => intro st h; exact h
  | cons p L ih =>
    intro st h
    rw [List.foldl_cons]
    exact ih _ (titleInv_step st p h)

end Orchestrator

/-! ## C1 : pairwise distinct identifiers after dedup -/

/-- Counterexample to C1: paper 3 shares its DOI with paper 1 and its
PMID with paper 2; merging it into paper 1 back-fills the PMID `"123"`
into paper 1, so the two surviving papers carry the same PMID. -/
theorem dedup_distinct_identifiers_counterexample :
    Orchestrator.distinct_keys_claim (Orchestrator.deduplicate c1_papers) = false ∧
    (Orchestrator.deduplicate c1_papers).map Paper.pmid = [some "123", some "123"] := by
  constructor
  · decide
  · decide

/-! ## C4 : dedup idempotence -/

namespace Orchestrator

/-- When all keys are fresh, one loop iteration just registers the paper:
no merge happens, the paper is appended to the store and to `unique`,
and each guarded map gains the corresponding key. -/
theorem dedup_step_fresh (st : DedupState) (p : Paper) (h : KeysFresh st p) :
    dedup_step st p =
      { store := st.store ++ [p],
        by_doi := if truthyStr p.doi then (doiKey p, st.store.length) :: st.by_doi
          else st.by_doi,
        by_pmid := if truthyStr p.pmid then (pmidKey p, st.store.length) :: st.by_pmid
          else st.by_pmid,
        by_arxiv := if truthyStr p.arxiv_id then (arxivKey p, st.store.length) :: st.by_arxiv
          else st.by_arxiv,
        by_title := (titleKey p, st.store.length) :: st.by_title,
        unique := st.unique ++ [st.store.length] } := by
  obtain ⟨h1, h2, h3, h4⟩ := h
  rw [dedup_step]
  by_cases hd : truthyStr p.doi <;> by_cases hp : truthyStr p.pmid <;>
    by_cases ha : truthyStr p.arxiv_id <;>
    simp [dedup_probe, DedupState.getMap, DedupState.setMap, selGuard, selKey,
      hd, hp, ha, h1, h2, h3, h4]

theorem distinct_keys_pair_spec (p q : Paper) (h : distinct_keys_pair p q = true) :
    (truthyStr p.doi = true → truthyStr q.doi = true → doiKey p ≠ doiKey q) ∧
    (truthyStr p.pmid = true → truthyStr q.pmid = true → pmidKey p ≠ pmidKey q) ∧
    (truthyStr p.arxiv_id = true → truthyStr q.arxiv_id = true → arxivKey p ≠ arxivKey q) ∧
    titleKey p ≠ titleKey q := by
  rw [distinct_keys_pair] at h
  simp only [Bool.and_eq_true, Bool.or_eq_true, Bool.not_eq_true', Bool.and_eq_false_iff,
    bne_iff_ne, ne_eq] at h
  obtain ⟨ha, hb, hc, hd⟩ := h
  refine ⟨?_, ?_, ?_, hd⟩
  · intro h1 h2
    rcases ha with ha | ha
    · rcases ha with ha | ha
      · rw [h1] at ha; exact absurd ha (by simp)
      · rw [h2] at ha; exact absurd ha (by simp)
    · exact ha
  · intro h1 h2
    rcases hb with hb | hb
    · rcases hb with hb | hb
      · rw [h1] at hb; exact absurd hb (by simp)
      · rw [h2] at hb; exact absurd hb (by simp)
    · exact hb
  · intro h1 h2
    rcases hc with hc | hc
    · rcases hc with hc | hc
      · rw [h1] at hc; exact absurd hc (by simp)
      · rw [h2] at hc; exact absurd hc (by simp)
    · exact hc

theorem dedup_fold_fresh (L : List Paper) :
    ∀ st : DedupState,
      (∀ j ∈ st.unique, j < st.store.length) →
      (∀ p ∈ L, KeysFresh st p) →
      L.Pairwise (fun p q => distinct_keys_pair p q = true) →
      (L.foldl dedup_step st).unique.map
          (fun j => (L.foldl dedup_step st).store.getD j default)
        = st.unique.map (fun j => st.store.getD j default) ++ L := by
  induction L with
  | nil =>
    intro st hb hf hpw
    simp
  | cons p L ih =>
    intro st hb hf hpw
    rw [List.foldl_cons, dedup_step_fresh st p (hf p (List.mem_cons_self p L))]
    rw [List.pairwise_cons] at hpw
    obtain ⟨hhead, htail⟩ := hpw
    have hb' : ∀ j ∈ st.unique ++ [st.store.length], j < (st.store ++ [p]).length := by
      intro j hj
      simp only [List.mem_append, List.mem_singleton] at hj
      simp only [List.length_append, List.length_cons, List.length_nil]
      rcases hj with hj | hj
      · have := hb j hj; omega
      · omega
    have hf' : ∀ q ∈ L, KeysFresh
        { store := st.store ++ [p],
          by_doi := if truthyStr p.doi then (doiKey p, st.store.length) :: st.by_doi
            else st.by_doi,
          by_pmid := if truthyStr p.pmid then (pmidKey p, st.store.length) :: st.by_pmid
            else st.by_pmid,
          by_arxiv := if truthyStr p.arxiv_id then (arxivKey p, st.store.length) :: st.by_arxiv
            else st.by_arxiv,
          by_title := (titleKey p, st.store.length) :: st.by_title,
          unique := st.unique ++ [st.store.length] } q := by
      intro q hq
      obtain ⟨k1, k2, k3, k4⟩ := hf q (List.mem_cons_of_mem p hq)
      obtain ⟨d1, d2, d3, d4⟩ := distinct_keys_pair_spec p q (hhead q hq)
      refine ⟨?_, ?_, ?_, ?_⟩
      · intro hq1
        show (if truthyStr p.doi then (doiKey p, st.store.length) :: st.by_doi
          else st.by_doi).lookup (doiKey q) = none
        by_cases hpd : truthyStr p.doi
        · rw [if_pos hpd, lookup_cons_ne _ _ _ _ (Ne.symm (d1 hpd hq1))]
          exact k1 hq1
        · rw [if_neg hpd]
          exact k1 hq1
      · intro hq2
        show (if truthyStr p.pmid then (pmidKey p, st.store.length) :: st.by_pmid
          else st.by_pmid).lookup (pmidKey q) = none
        by_cases hpp : truthyStr p.pmid
        · rw [if_pos hpp, lookup_cons_ne _ _ _ _ (Ne.symm (d2 hpp hq2))]
          exact k2 hq2
        · rw [if_neg hpp]
          exact k2 hq2
      · intro hq3
        show (if truthyStr p.arxiv_id then (arxivKey p, st.store.length) :: st.by_arxiv
          else st.by_arxiv).lookup (arxivKey q) = none
        by_cases hpa : truthyStr p.arxiv_id
        · rw [if_pos hpa, lookup_cons_ne _ _ _ _ (Ne.symm (d3 hpa hq3))]
          exact k3 hq3
        · rw [if_neg hpa]
          exact k3 hq3
      · show ((titleKey p, st.store.length) :: st.by_title).lookup (titleKey q) = none
        rw [lookup_cons_ne _ _ _ _ (Ne.symm d4)]
        exact k4
    have hrec := ih _ hb' hf' htail
    rw [hrec]
    have hmap : (st.unique ++ [st.store.length]).map
        (fun j => (st.store ++ [p]).getD j default)
      = st.unique.map (fun j => st.store.getD j default) ++ [p] := by
      rw [List.map_append]
      congr 1
      · apply List.map_congr_left
        intro j hj
        have := hb j hj
        simp [List.getD_eq_getElem?_getD, List.getElem?_append, this]
      · simp [List.getD_eq_getElem?_getD, List.getElem?_append_right (Nat.le_refl _)]
    rw [hmap, List.append_assoc]
    rfl

end Orchestrator

/-- Counterexample to C4: one pass leaves two papers sharing a
back-filled PMID, so a second pass merges further and the result
shrinks — dedup is not idempotent. -/
theorem dedup_idempotence_counterexample :
    Orchestrator.deduplicate (Orchestrator.deduplicate c4_papers)
      ≠ Orchestrator.deduplicate c4_papers := by decide

/-- Amended C4: `_deduplicate` is the identity — hence idempotent — on
lists whose papers have pairwise distinct dedup keys (DOI, PMID, arXiv,
normalized title); on arbitrary lists idempotence fails because a merge
can back-fill an identifier shared by two surviving papers. -/
theorem dedup_identity_on_distinct_keys (L : List Paper)
    (h : L.Pairwise (fun p q => Orchestrator.distinct_keys_pair p q = true)) :
    Orchestrator.deduplicate L = L ∧
    Orchestrator.deduplicate (Orchestrator.deduplicate L) = Orchestrator.deduplicate L := by
  have hfresh : ∀ p ∈ L, Orchestrator.KeysFresh {} p := by
    intro p _
    exact ⟨fun _ => rfl, fun _ => rfl, fun _ => rfl, rfl⟩
  have h1 : Orchestrator.deduplicate L = L := by
    show (L.foldl Orchestrator.dedup_step {}).unique.map
      (fun i => (L.foldl Orchestrator.dedup_step {}).store.getD i default) = L
    have := Orchestrator.dedup_fold_fresh L {}
      (by intro j hj; exact absurd hj (List.not_mem_nil j)) hfresh h
    simpa using this
  exact ⟨h1, by rw [h1]; exact h1⟩

/-- Witness for the amended C4 on a concrete key-distinct list. -/
theorem dedup_identity_on_distinct_keys_witness :
    c4_witness_papers.Pairwise
      (fun p q => Orchestrator.distinct_keys_pair p q = true) ∧
    Orchestrator.deduplicate c4_witness_papers = c4_witness_papers := by
  refine ⟨by decide, ?_⟩
  exact (dedup_identity_on_distinct_keys c4_witness_papers (by decide)).1

/-! ## C3 : same title, different DOI -/

/-- Amended C3: two papers with equal normalized titles but distinct
(truthy) DOIs, the second carrying no PMID or arXiv id, ARE merged by
`_deduplicate` — the incoming paper misses the DOI map and falls
through to the title probe, which hits; the output is the single merged
record. -/
theorem dedup_title_merges_different_doi (p q : Paper)
    (hpd : truthyStr p.doi = true) (hqd : truthyStr q.doi = true)
    (hdoi : Orchestrator.doiKey q ≠ Orchestrator.doiKey p)
    (hqp : truthyStr q.pmid = false) (hqa : truthyStr q.arxiv_id = false)
    (ht : Orchestrator.titleKey q = Orchestrator.titleKey p) :
    Orchestrator.deduplicate [p, q] = [Orchestrator.merge_papers p q] := by
  have hfresh : Orchestrator.KeysFresh {} p :=
    ⟨fun _ => rfl, fun _ => rfl, fun _ => rfl, rfl⟩
  show ((([] : List Paper) ++ [p, q]).foldl Orchestrator.dedup_step {}).unique.map _
    = [Orchestrator.merge_papers p q]
  rw [List.nil_append]
  rw [show ([p, q].foldl Orchestrator.dedup_step {})
    = Orchestrator.dedup_step (Orchestrator.dedup_step {} p) q from rfl]
  rw [Orchestrator.dedup_step_fresh {} p hfresh]
  simp only [if_pos hpd]
  rw [Orchestrator.dedup_step]
  simp [Orchestrator.dedup_probe, Orchestrator.DedupState.getMap,
    Orchestrator.DedupState.setMap, Orchestrator.DedupState.mergeAt,
    Orchestrator.selGuard, Orchestrator.selKey, hqd, hqp, hqa, ht,
    List.lookup, beq_false_of_ne hdoi]

/-- Counterexample to C3: the two papers satisfy the claim's setup
(equal normalized titles, distinct DOIs, no other identifiers shared or
present), yet `_deduplicate` returns a single merged record, so both
papers do NOT appear in the output. -/
theorem dedup_title_claim_counterexample :
    truthyStr c3_p1.doi = true ∧ truthyStr c3_p2.doi = true ∧
    Orchestrator.doiKey c3_p1 ≠ Orchestrator.doiKey c3_p2 ∧
    c3_p1.pmid = none ∧ c3_p2.pmid = none ∧
    c3_p1.arxiv_id = none ∧ c3_p2.arxiv_id = none ∧
    Orchestrator.titleKey c3_p1 = Orchestrator.titleKey c3_p2 ∧
    (Orchestrator.deduplicate [c3_p1, c3_p2]).length = 1 := by decide

/-- Witness for the amended C3 at concrete papers. -/
theorem dedup_title_merges_different_doi_witness :
    truthyStr c3_w1.doi = true ∧ truthyStr c3_w2.doi = true ∧
    Orchestrator.doiKey c3_w2 ≠ Orchestrator.doiKey c3_w1 ∧
    truthyStr c3_w2.pmid = false ∧ truthyStr c3_w2.arxiv_id = false ∧
    Orchestrator.titleKey c3_w2 = Orchestrator.titleKey c3_w1 ∧
    Orchestrator.deduplicate [c3_w1, c3_w2]
      = [Orchestrator.merge_papers c3_w1 c3_w2] := by
  refine ⟨by decide, by decide, by decide, by decide, by decide, by decide, ?_⟩
  exact dedup_title_merges_different_doi c3_w1 c3_w2 (by decide) (by decide) (by decide)
    (by decide) (by decide) (by decide)

/-! ## C8 : title normalization idempotence -/

theorem pyLowerChar_not_upper (c : Char) :
    ¬(65 ≤ (pyLowerChar c).toNat ∧ (pyLowerChar c).toNat ≤ 90) := by
  rw [pyLowerChar]
  by_cases h : 65 ≤ c.toNat ∧ c.toNat ≤ 90
  · rw [if_pos h]
    have hvalid : (c.toNat + 32).isValidChar := Or.inl (by omega)
    have htn : (Char.ofNat (c.toNat + 32)).toNat = c.toNat + 32 := by
      unfold Char.ofNat
      rw [dif_pos hvalid]
      rfl
    rw [htn]
    omega
  · rw [if_neg h]
    exact h

theorem pyLowerChar_idem (c : Char) : pyLowerChar (pyLowerChar c) = pyLowerChar c := by
  conv_lhs => rw [pyLowerChar]
  rw [if_neg (pyLowerChar_not_upper c)]

theorem splitAux_words (l : List Char) :
    ∀ acc : List Char, (∀ c ∈ acc, isSpaceChar c = false) →
      ∀ w ∈ splitAux l acc,
        w ≠ [] ∧ ∀ c ∈ w, isSpaceChar c = false ∧ (c ∈ l ∨ c ∈ acc) := by
  induction l with
  | nil =>
    intro acc hacc w hw
    rw [splitAux] at hw
    split at hw
    · exact absurd hw (List.not_mem_nil w)
    · next hne =>
      rw [List.mem_singleton] at hw
      subst hw
      refine ⟨?_, ?_⟩
      · intro hrev
        rw [List.reverse_eq_nil_iff] at hrev
        rw [hrev] at hne
        exact hne rfl
      · intro c hc
        rw [List.mem_reverse] at hc
        exact ⟨hacc c hc, Or.inr hc⟩
  | cons x cs ih =>
    intro acc hacc w hw
    rw [splitAux] at hw
    by_cases hx : isSpaceChar x = true
    · rw [if_pos hx] at hw
      split at hw
      · have := ih [] (by intro c hc; exact absurd hc (List.not_mem_nil c)) w hw
        refine ⟨this.1, fun c hc => ⟨(this.2 c hc).1, ?_⟩⟩
        rcases (this.2 c hc).2 with h | h
        · exact Or.inl (List.mem_cons_of_mem x h)
        · exact absurd h (List.not_mem_nil c)
      · next hne =>
        rw [List.mem_cons] at hw
        rcases hw with hw | hw
        · subst hw
          refine ⟨?_, ?_⟩
          · intro hrev
            rw [List.reverse_eq_nil_iff] at hrev
            rw [hrev] at hne
            exact hne rfl
          · intro c hc
            rw [List.mem_reverse] at hc
            exact ⟨hacc c hc, Or.inr hc⟩
        · have := ih [] (by intro c hc; exact absurd hc (List.not_mem_nil c)) w hw
          refine ⟨this.1, fun c hc => ⟨(this.2 c hc).1, ?_⟩⟩
          rcases (this.2 c hc).2 with h | h
          · exact Or.inl (List.mem_cons_of_mem x h)
          · exact absurd h (List.not_mem_nil c)
    · rw [if_neg hx] at hw
      have hx' : isSpaceChar x = false := by
        revert hx
        cases isSpaceChar x <;> simp
      have hacc' : ∀ c ∈ x :: acc, isSpaceChar c = false := by
        intro c hc
        rw [List.mem_cons] at hc
        rcases hc with hc | hc
        · rw [hc]; exact hx'
        · exact hacc c hc
      have := ih (x :: acc) hacc' w hw
      refine ⟨this.1, fun c hc => ⟨(this.2 c hc).1, ?_⟩⟩
      rcases (this.2 c hc).2 with h | h
      · exact Or.inl (List.mem_cons_of_mem x h)
      · rw [List.mem_cons] at h
        rcases h with h | h
        · rw [h]; exact Or.inl (List.mem_cons_self x cs)
        · exact Or.inr h

theorem splitAux_append_chunk (w : List Char) :
    ∀ (l acc : List Char), (∀ c ∈ w, isSpaceChar c = false) →
      splitAux (w ++ l) acc = splitAux l (w.reverse ++ acc) := by
  induction w with
  | nil =>
    intro l acc _
    simp
  | cons c w ih =>
    intro l acc hw
    have hc : isSpaceChar c = false := hw c (List.mem_cons_self c w)
    rw [List.cons_append, splitAux, hc]
    simp only [Bool.false_eq_true, if_false]
    rw [ih l (c :: acc) (fun x hx => hw x (List.mem_cons_of_mem c hx))]
    congr 1
    simp

theorem pySplit_joinWords (ws : List (List Char))
    (h : ∀ w ∈ ws, w ≠ [] ∧ ∀ c ∈ w, isSpaceChar c = false) :
    pySplit (joinWords ws) = ws := by
  induction ws with
  | nil => rfl
  | cons w ws ih =>
    obtain ⟨hne, hnospace⟩ := h w (List.mem_cons_self w ws)
    have hrevne : w.reverse ≠ [] := by
      intro hrev
      rw [List.reverse_eq_nil_iff] at hrev
      exact hne hrev
    cases ws with
    | nil =>
      show splitAux (joinWords [w]) [] = [w]
      rw [joinWords]
      have hch := splitAux_append_chunk w [] [] hnospace
      rw [List.append_nil, List.append_nil] at hch
      rw [hch, splitAux]
      rw [if_neg (by simpa [List.isEmpty_iff] using hrevne)]
      simp
    | cons x ws' =>
      show splitAux (joinWords (w :: x :: ws')) [] = w :: x :: ws'
      rw [joinWords]
      rw [splitAux_append_chunk w (' ' :: joinWords (x :: ws')) [] hnospace]
      rw [splitAux]
      rw [if_pos (show isSpaceChar ' ' = true from rfl)]
      rw [List.append_nil]
      rw [if_neg (by simpa [List.isEmpty_iff] using hrevne)]
      rw [List.reverse_reverse]
      congr 1
      exact ih (fun w' hw' => h w' (List.mem_cons_of_mem w hw'))

theorem joinWords_chars (ws : List (List Char)) :
    ∀ c ∈ joinWords ws, c = ' ' ∨ ∃ w ∈ ws, c ∈ w := by
  induction ws with
  | nil =>
    intro c hc
    exact absurd hc (List.not_mem_nil c)
  | cons w ws ih =>
    cases ws with
    | nil =>
      intro c hc
      rw [joinWords] at hc
      exact Or.inr ⟨w, List.mem_cons_self w [], hc⟩
    | cons x ws' =>
      intro c hc
      rw [joinWords, List.mem_append] at hc
      rcases hc with hc | hc
      · exact Or.inr ⟨w, List.mem_cons_self w _, hc⟩
      · rw [List.mem_cons] at hc
        rcases hc with hc | hc
        · exact Or.inl hc
        · rcases ih c hc with h | ⟨w', hw', hcw⟩
          · exact Or.inl h
          · exact Or.inr ⟨w', List.mem_cons_of_mem w hw', hcw⟩

/-- C8: `_normalize_title` is idempotent. -/
theorem normalize_title_idempotent (t : String) :
    Orchestrator.normalize_title (Orchestrator.normalize_title t)
      = Orchestrator.normalize_title t := by
  by_cases ht : t = ""
  · rw [ht]
    decide
  · set cleaned := (t.data.map pyLowerChar).filter isKeptChar with hclean
    set kept := (pySplit (joinWords (pySplit cleaned))).filter
      (fun w => !Orchestrator.is_stopword w) with hkept
    have hu : Orchestrator.normalize_title t = String.mk (joinWords kept) := by
      rw [Orchestrator.normalize_title, if_neg ht]
    have hwords : ∀ w ∈ kept, w ≠ [] ∧ ∀ c ∈ w, isSpaceChar c = false := by
      intro w hw
      have hw' := (List.mem_filter.mp hw).1
      have hsp := splitAux_words (joinWords (pySplit cleaned)) []
        (by intro c hc; exact absurd hc (List.not_mem_nil c)) w hw'
      exact ⟨hsp.1, fun c hc => (hsp.2 c hc).1⟩
    have hchars : ∀ c ∈ joinWords kept, pyLowerChar c = c ∧ isKeptChar c = true := by
      intro c hc
      rcases joinWords_chars kept c hc with hsp | ⟨w, hw, hcw⟩
      · rw [hsp]
        exact ⟨by decide, by decide⟩
      · have hw' := (List.mem_filter.mp hw).1
        have hsw := splitAux_words (joinWords (pySplit cleaned)) []
          (by intro c' hc'; exact absurd hc' (List.not_mem_nil c')) w hw'
        rcases (hsw.2 c hcw).2 with hcj | habs
        · rcases joinWords_chars (pySplit cleaned) c hcj with hsp | ⟨w', hw'', hcw'⟩
          · rw [hsp]
            exact ⟨by decide, by decide⟩
          · have hsw2 := splitAux_words cleaned []
              (by intro c' hc'; exact absurd hc' (List.not_mem_nil c')) w' hw''
            rcases (hsw2.2 c hcw').2 with hcc | habs2
            · rw [hclean] at hcc
              have h1 := List.mem_filter.mp hcc
              obtain ⟨c0, _, hc0⟩ := List.mem_map.mp h1.1
              refine ⟨?_, h1.2⟩
              rw [← hc0]
              exact pyLowerChar_idem c0
            · exact absurd habs2 (List.not_mem_nil c)
        · exact absurd habs (List.not_mem_nil c)
    have hstop : kept.filter (fun w => !Orchestrator.is_stopword w) = kept := by
      apply List.filter_eq_self.mpr
      intro w hw
      exact (List.mem_filter.mp hw).2
    by_cases hu0 : String.mk (joinWords kept) = ""
    · rw [hu, hu0]
      decide
    · rw [hu]
      rw [Orchestrator.normalize_title, if_neg hu0]
      show String.mk (joinWords ((pySplit (joinWords (pySplit
          (((String.mk (joinWords kept)).data.map pyLowerChar).filter isKeptChar)))).filter
          (fun w => !Orchestrator.is_stopword w)))
        = String.mk (joinWords kept)
      have e1 : (String.mk (joinWords kept)).data = joinWords kept := rfl
      have hmap : (joinWords kept).map pyLowerChar = joinWords kept := by
        have := List.map_congr_left (l := joinWords kept) (f := pyLowerChar) (g := id)
          (fun a ha => (hchars a ha).1)
        simpa using this
      have hfix : (joinWords kept).filter isKeptChar = joinWords kept :=
        List.filter_eq_self.mpr (fun c hc => (hchars c hc).2)
      rw [e1, hmap, hfix, pySplit_joinWords kept hwords, pySplit_joinWords kept hwords, hstop]

/-! ## C1 revision : DOI-key distinctness machinery -/

namespace Orchestrator

theorem merge_papers_doi_truthy_target (t s : Paper) (h : truthyStr t.doi = true) :
    (merge_papers t s).doi = t.doi := by
  show backfill t.doi s.doi = t.doi
  rw [backfill, h]
  simp

theorem merge_papers_doi_falsy_source (t s : Paper) (h : truthyStr s.doi = false) :
    (merge_papers t s).doi = t.doi := by
  show backfill t.doi s.doi = t.doi
  rw [backfill, h]
  simp

theorem merge_papers_doi_backfill (t s : Paper) (hf : truthyStr t.doi = false)
    (hs : truthyStr s.doi = true) : (merge_papers t s).doi = s.doi := by
  show backfill t.doi s.doi = s.doi
  rw [backfill, hf, hs]
  simp

theorem doiKey_eq_of_doi_eq (p q : Paper) (h : p.doi = q.doi) : doiKey p = doiKey q := by
  rw [doiKey, doiKey, h]

theorem lookup_mem {m : List (String × Nat)} {k : String} {v : Nat}
    (h : m.lookup k = some v) : (k, v) ∈ m := by
  induction m with
  | nil => exact absurd h (by simp [List.lookup])
  | cons e m ih =>
    obtain ⟨k', v'⟩ := e
    by_cases hk : (k == k') = true
    · rw [List.lookup, hk] at h
      have hkeq : k = k' := eq_of_beq hk
      have hveq : v' = v := Option.some.inj h
      rw [← hkeq, hveq]
      exact List.mem_cons_self _ _
    · rw [List.lookup] at h
      rw [Bool.not_eq_true] at hk
      rw [hk] at h
      exact List.mem_cons_of_mem _ (ih h)

theorem dedup_probe_by_doi_ne (sel : MapSel) (i : Nat) (p : Paper) (st : DedupState)
    (m : Bool) (hsel : sel ≠ .doi) :
    (dedup_probe sel i p (st, m)).1.by_doi = st.by_doi := by
  rw [dedup_probe]
  split
  · split
    · rfl
    · cases sel with
      | doi => exact absurd rfl hsel
      | pmid => rfl
      | arxiv => rfl
      | title => rfl
  · rfl

theorem dedup_probe_trichotomy (sel : MapSel) (i : Nat) (p : Paper) (st : DedupState) :
    (selGuard sel p = false ∧ dedup_probe sel i p (st, false) = (st, false)) ∨
    (∃ t, (st.getMap sel).lookup (selKey sel p) = some t ∧
      dedup_probe sel i p (st, false) = (st.mergeAt t p, true)) ∨
    (selGuard sel p = true ∧ (st.getMap sel).lookup (selKey sel p) = none ∧
      dedup_probe sel i p (st, false)
        = (st.setMap sel ((selKey sel p, i) :: st.getMap sel), false)) := by
  cases hg : selGuard sel p with
  | false =>
    left
    refine ⟨rfl, ?_⟩
    rw [dedup_probe]
    simp [hg]
  | true =>
    cases hl : (st.getMap sel).lookup (selKey sel p) with
    | some t =>
      right; left
      refine ⟨t, rfl, ?_⟩
      rw [dedup_probe]
      simp [hg, hl]
    | none =>
      right; right
      refine ⟨rfl, rfl, ?_⟩
      rw [dedup_probe]
      simp [hg, hl]

theorem dedup_probe_of_snd_true (sel : MapSel) (i : Nat) (p : Paper)
    (s : DedupState × Bool) (hs : s.2 = true) : dedup_probe sel i p s = s := by
  obtain ⟨st, m⟩ := s
  cases m
  · exact Bool.noConfusion hs
  · exact dedup_probe_merged sel i p st

end Orchestrator

namespace Orchestrator

theorem dedup_probe_spec_ne_doi (sel : MapSel) (i : Nat) (p : Paper) (st : DedupState)
    (hsel : sel ≠ .doi) :
    ((dedup_probe sel i p (st, false)).2 = false ∧
      (dedup_probe sel i p (st, false)).1.store = st.store ∧
      (dedup_probe sel i p (st, false)).1.by_doi = st.by_doi ∧
      (dedup_probe sel i p (st, false)).1.unique = st.unique) ∨
    ((dedup_probe sel i p (st, false)).2 = true ∧ ∃ t,
      (dedup_probe sel i p (st, false)).1.store
        = st.store.set t (merge_papers (st.store.getD t default) p) ∧
      (dedup_probe sel i p (st, false)).1.by_doi = st.by_doi ∧
      (dedup_probe sel i p (st, false)).1.unique = st.unique) := by
  rcases dedup_probe_trichotomy sel i p st with ⟨hg, heq⟩ | ⟨t, hl, heq⟩ | ⟨hg, hl, heq⟩
  · rw [heq]
    exact Or.inl ⟨rfl, rfl, rfl, rfl⟩
  · rw [heq]
    exact Or.inr ⟨rfl, t, rfl, rfl, rfl⟩
  · rw [heq]
    left
    refine ⟨rfl, ?_, ?_, ?_⟩
    · cases sel <;> rfl
    · cases sel with
      | doi => exact absurd rfl hsel
      | pmid => rfl
      | arxiv => rfl
      | title => rfl
    · cases sel <;> rfl

theorem dedup_probe_spec_pair (sel : MapSel) (i : Nat) (p : Paper)
    (s : DedupState × Bool) (hsel : sel ≠ .doi) (hs : s.2 = false) :
    ((dedup_probe sel i p s).2 = false ∧
      (dedup_probe sel i p s).1.store = s.1.store ∧
      (dedup_probe sel i p s).1.by_doi = s.1.by_doi ∧
      (dedup_probe sel i p s).1.unique = s.1.unique) ∨
    ((dedup_probe sel i p s).2 = true ∧ ∃ t,
      (dedup_probe sel i p s).1.store
        = s.1.store.set t (merge_papers (s.1.store.getD t default) p) ∧
      (dedup_probe sel i p s).1.by_doi = s.1.by_doi ∧
      (dedup_probe sel i p s).1.unique = s.1.unique) := by
  obtain ⟨st, m⟩ := s
  cases m
  · exact dedup_probe_spec_ne_doi sel i p st hsel
  · exact Bool.noConfusion hs

theorem later_probes_spec (i : Nat) (p : Paper) (st : DedupState) :
    ((laterProbes i p st).2 = false ∧
      (laterProbes i p st).1.store = st.store ∧
      (laterProbes i p st).1.by_doi = st.by_doi ∧
      (laterProbes i p st).1.unique = st.unique) ∨
    ((laterProbes i p st).2 = true ∧ ∃ t,
      (laterProbes i p st).1.store
        = st.store.set t (merge_papers (st.store.getD t default) p) ∧
      (laterProbes i p st).1.by_doi = st.by_doi ∧
      (laterProbes i p st).1.unique = st.unique) := by
  rw [laterProbes]
  rcases dedup_probe_spec_pair .pmid i p (st, false) (by simp) rfl with
    ⟨hf1, hs1, hd1, hu1⟩ | ⟨ht1, t1, hs1, hd1, hu1⟩
  · rcases dedup_probe_spec_pair .arxiv i p (dedup_probe .pmid i p (st, false)) (by simp) hf1
      with ⟨hf2, hs2, hd2, hu2⟩ | ⟨ht2, t2, hs2, hd2, hu2⟩
    · rcases dedup_probe_spec_pair .title i p
        (dedup_probe .arxiv i p (dedup_probe .pmid i p (st, false))) (by simp) hf2
        with ⟨hf3, hs3, hd3, hu3⟩ | ⟨ht3, t3, hs3, hd3, hu3⟩
      · left
        refine ⟨hf3, ?_, ?_, ?_⟩
        · rw [hs3, hs2, hs1]
        · rw [hd3, hd2, hd1]
        · rw [hu3, hu2, hu1]
      · right
        refine ⟨ht3, t3, ?_, ?_, ?_⟩
        · rw [hs3, hs2, hs1]
        · rw [hd3, hd2, hd1]
        · rw [hu3, hu2, hu1]
    · have hT := dedup_probe_of_snd_true .title i p
        (dedup_probe .arxiv i p (dedup_probe .pmid i p (st, false))) ht2
      right
      refine ⟨by rw [hT]; exact ht2, t2, ?_, ?_, ?_⟩
      · rw [hT, hs2, hs1]
      · rw [hT, hd2, hd1]
      · rw [hT, hu2, hu1]
  · have hA := dedup_probe_of_snd_true .arxiv i p (dedup_probe .pmid i p (st, false)) ht1
    have hT := dedup_probe_of_snd_true .title i p
      (dedup_probe .arxiv i p (dedup_probe .pmid i p (st, false))) (by rw [hA]; exact ht1)
    right
    refine ⟨by rw [hT, hA]; exact ht1, t1, ?_, ?_, ?_⟩
    · rw [hT, hA, hs1]
    · rw [hT, hA, hd1]
    · rw [hT, hA, hu1]

theorem doiInv_congr (s1 s2 : DedupState)
    (hst : ∀ j, (s2.store.getD j default).doi = (s1.store.getD j default).doi)
    (hlen : s2.store.length = s1.store.length)
    (hby : s2.by_doi = s1.by_doi) (hu : s2.unique = s1.unique)
    (h : DoiInv s1) : DoiInv s2 := by
  obtain ⟨h0, h1, h3⟩ := h
  refine ⟨?_, ?_, ?_⟩
  · intro e he
    rw [hby] at he
    obtain ⟨he1, he2, he3⟩ := h0 e he
    refine ⟨by rw [hlen]; exact he1, ?_, ?_⟩
    · rw [hst e.2]
      exact he2
    · rw [doiKey_eq_of_doi_eq _ _ (hst e.2)]
      exact he3
  · intro i hi htr
    rw [hu] at hi
    rw [hst i] at htr
    rw [hby, doiKey_eq_of_doi_eq _ _ (hst i)]
    exact h1 i hi htr
  · intro i hi j hj hti htj hk
    rw [hu] at hi hj
    rw [hst i] at hti
    rw [hst j] at htj
    rw [doiKey_eq_of_doi_eq _ _ (hst i), doiKey_eq_of_doi_eq _ _ (hst j)] at hk
    exact h3 i hi j hj hti htj hk

end Orchestrator

namespace Orchestrator

theorem doiInv_step (st : DedupState) (p : Paper)
    (ht : TitleInv st) (hd : DoiInv st) : DoiInv (dedup_step st p) := by
  obtain ⟨hb, hnd, hlk⟩ := ht
  obtain ⟨hD0, hD1, hD3⟩ := hd
  have hget0 : ∀ j, j < st.store.length →
      (st.store ++ [p]).getD j default = st.store.getD j default := by
    intro j hj
    simp [List.getD_eq_getElem?_getD, List.getElem?_append, hj]
  have hgetn : (st.store ++ [p]).getD st.store.length default = p := by
    simp [List.getD_eq_getElem?_getD, List.getElem?_append_right (Nat.le_refl _)]
  rw [dedup_step]
  set st0 : DedupState := { st with store := st.store ++ [p] } with hst0
  set r := dedup_probe .title st.store.length p (dedup_probe .arxiv st.store.length p
    (dedup_probe .pmid st.store.length p
      (dedup_probe .doi st.store.length p (st0, false)))) with hr
  have hs0len : st0.store.length = st.store.length + 1 := by
    show (st.store ++ [p]).length = st.store.length + 1
    simp
  have hd0 : DoiInv st0 := by
    refine ⟨?_, ?_, ?_⟩
    · intro e he
      obtain ⟨he1, he2, he3⟩ := hD0 e he
      refine ⟨by rw [hs0len]; omega, ?_, ?_⟩
      · show truthyStr ((st.store ++ [p]).getD e.2 default).doi = true
        rw [hget0 _ he1]
        exact he2
      · show doiKey ((st.store ++ [p]).getD e.2 default) = e.1
        rw [hget0 _ he1]
        exact he3
    · intro i hi htr
      have hgd : st0.store.getD i default = st.store.getD i default := hget0 i (hb i hi)
      rw [hgd] at htr ⊢
      exact hD1 i hi htr
    · intro i hi j hj hti htj hk
      have hgi : st0.store.getD i default = st.store.getD i default := hget0 i (hb i hi)
      have hgj : st0.store.getD j default = st.store.getD j default := hget0 j (hb j hj)
      rw [hgi] at hti hk
      rw [hgj] at htj hk
      exact hD3 i hi j hj hti htj hk
  rcases dedup_probe_trichotomy .doi st.store.length p st0 with
    ⟨hg, heq⟩ | ⟨t, hl, heq⟩ | ⟨hg, hl, heq⟩
  -- Case 1: p.doi falsy, the DOI probe is skipped
  · rw [selGuard_doi] at hg
    have hrl : r = laterProbes st.store.length p st0 := by
      rw [hr, heq]
      rfl
    rcases later_probes_spec st.store.length p st0 with
      ⟨hf, hsS, hdS, huS⟩ | ⟨htr2, t, hsS, hdS, huS⟩
    · -- 1a: no merge anywhere, the paper joins unique with a falsy DOI
      have hm : r.2 = false := by rw [hrl]; exact hf
      simp only [hm, Bool.not_false, if_true]
      have hsr : r.1.store = st.store ++ [p] := by rw [hrl, hsS]
      have hdr : r.1.by_doi = st.by_doi := by rw [hrl, hdS]
      have hur : r.1.unique = st.unique := by rw [hrl, huS]
      refine ⟨?_, ?_, ?_⟩
      · intro e he
        have he' : e ∈ st.by_doi := by
          have h2 : e ∈ r.1.by_doi := he
          rw [hdr] at h2
          exact h2
        obtain ⟨he1, he2, he3⟩ := hD0 e he'
        refine ⟨?_, ?_, ?_⟩
        · show e.2 < r.1.store.length
          rw [hsr]
          simp
          omega
        · show truthyStr (r.1.store.getD e.2 default).doi = true
          rw [hsr, hget0 _ he1]
          exact he2
        · show doiKey (r.1.store.getD e.2 default) = e.1
          rw [hsr, hget0 _ he1]
          exact he3
      · intro i hi htr
        have hi' : i ∈ st.unique ++ [st.store.length] := by
          have h2 : i ∈ r.1.unique ++ [st.store.length] := hi
          rw [hur] at h2
          exact h2
        have htr' : truthyStr ((st.store ++ [p]).getD i default).doi = true := by
          have h2 : truthyStr (r.1.store.getD i default).doi = true := htr
          rw [hsr] at h2
          exact h2
        rw [List.mem_append, List.mem_singleton] at hi'
        rcases hi' with hi' | hi'
        · rw [hget0 _ (hb i hi')] at htr'
          obtain ⟨ri, hri⟩ := hD1 i hi' htr'
          refine ⟨ri, ?_⟩
          show r.1.by_doi.lookup (doiKey (r.1.store.getD i default)) = some ri
          rw [hdr, hsr, hget0 _ (hb i hi')]
          exact hri
        · subst hi'
          rw [hgetn] at htr'
          rw [htr'] at hg
          exact Bool.noConfusion hg
      · intro i hi j hj hti htj hk
        have hi' : i ∈ st.unique ++ [st.store.length] := by
          have h2 : i ∈ r.1.unique ++ [st.store.length] := hi
          rw [hur] at h2
          exact h2
        have hj' : j ∈ st.unique ++ [st.store.length] := by
          have h2 : j ∈ r.1.unique ++ [st.store.length] := hj
          rw [hur] at h2
          exact h2
        have hti' : truthyStr ((st.store ++ [p]).getD i default).doi = true := by
          have h2 : truthyStr (r.1.store.getD i default).doi = true := hti
          rw [hsr] at h2
          exact h2
        have htj' : truthyStr ((st.store ++ [p]).getD j default).doi = true := by
          have h2 : truthyStr (r.1.store.getD j default).doi = true := htj
          rw [hsr] at h2
          exact h2
        have hk' : doiKey ((st.store ++ [p]).getD i default)
            = doiKey ((st.store ++ [p]).getD j default) := by
          have h2 : doiKey (r.1.store.getD i default) = doiKey (r.1.store.getD j default) := hk
          rw [hsr] at h2
          exact h2
        rw [List.mem_append, List.mem_singleton] at hi' hj'
        rcases hi' with hi' | hi'
        · rcases hj' with hj' | hj'
          · rw [hget0 _ (hb i hi')] at hti' hk'
            rw [hget0 _ (hb j hj')] at htj' hk'
            exact hD3 i hi' j hj' hti' htj' hk'
          · subst hj'
            rw [hgetn] at htj'
            rw [htj'] at hg
            exact Bool.noConfusion hg
        · subst hi'
          rw [hgetn] at hti'
          rw [hti'] at hg
          exact Bool.noConfusion hg
    · -- 1b: merged at a later probe; the falsy-DOI source changes no DOI field
      have hm : r.2 = true := by rw [hrl]; exact htr2
      simp only [hm, Bool.not_true, Bool.false_eq_true, if_false]
      have hsr : r.1.store = st0.store.set t
          (merge_papers (st0.store.getD t default) p) := by
        rw [hrl, hsS]
      have hdr : r.1.by_doi = st0.by_doi := by rw [hrl, hdS]
      have hur : r.1.unique = st0.unique := by rw [hrl, huS]
      refine doiInv_congr st0 r.1 ?_ ?_ hdr hur hd0
      · intro j
        rw [hsr]
        by_cases hj : j = t
        · subst hj
          by_cases hjlt : j < st0.store.length
          · rw [List.getD_eq_getElem?_getD, List.getElem?_set_self hjlt]
            simp only [Option.getD_some]
            exact merge_papers_doi_falsy_source _ _ hg
          · rw [List.set_eq_of_length_le (by omega)]
        · rw [List.getD_eq_getElem?_getD, List.getElem?_set_ne (by omega),
            ← List.getD_eq_getElem?_getD]
      · rw [hsr]
        simp
  -- Case 2: DOI probe hit: merge into the registrant, whose DOI is truthy
  · have hleq : st.by_doi.lookup (doiKey p) = some t := by
      have h2 : (st0.getMap .doi).lookup (selKey .doi p) = some t := hl
      rw [getMap_doi, selKey_doi] at h2
      exact h2
    obtain ⟨ht1, ht2, ht3⟩ := hD0 (doiKey p, t) (lookup_mem hleq)
    have hrl : r = (st0.mergeAt t p, true) := by
      rw [hr, heq, dedup_probe_of_snd_true .pmid _ _ _ rfl,
        dedup_probe_of_snd_true .arxiv _ _ _ rfl, dedup_probe_of_snd_true .title _ _ _ rfl]
    have hm : r.2 = true := by rw [hrl]
    simp only [hm, Bool.not_true, Bool.false_eq_true, if_false]
    refine doiInv_congr st0 r.1 ?_ ?_ ?_ ?_ hd0
    · intro j
      rw [hrl]
      show ((st0.store.set t (merge_papers (st0.store.getD t default) p)).getD j default).doi
        = (st0.store.getD j default).doi
      by_cases hj : j = t
      · subst hj
        have hjlt : j < st0.store.length := by rw [hs0len]; omega
        rw [List.getD_eq_getElem?_getD, List.getElem?_set_self hjlt]
        simp only [Option.getD_some]
        have htt : truthyStr (st0.store.getD j default).doi = true := by
          have hgd : st0.store.getD j default = st.store.getD j default := hget0 j ht1
          rw [hgd]
          exact ht2
        exact merge_papers_doi_truthy_target _ _ htt
      · rw [List.getD_eq_getElem?_getD, List.getElem?_set_ne (by omega),
          ← List.getD_eq_getElem?_getD]
    · rw [hrl]
      show (st0.store.set t (merge_papers (st0.store.getD t default) p)).length
        = st0.store.length
      simp
    · rw [hrl]
      rfl
    · rw [hrl]
      rfl
  -- Case 3: DOI probe miss: the key is registered at the incoming index
  · rw [selGuard_doi] at hg
    have hlq : st.by_doi.lookup (doiKey p) = none := by
      have h2 := hl
      rw [getMap_doi, selKey_doi] at h2
      exact h2
    have hrl : r = laterProbes st.store.length p
        (st0.setMap .doi ((selKey .doi p, st.store.length) :: st0.getMap .doi)) := by
      rw [hr, heq]
      rfl
    rcases later_probes_spec st.store.length p
        (st0.setMap .doi ((selKey .doi p, st.store.length) :: st0.getMap .doi)) with
      ⟨hf, hsS, hdS, huS⟩ | ⟨htr2, t, hsS, hdS, huS⟩
    · -- 3a: no merge: the paper joins unique with its freshly registered key
      have hm : r.2 = false := by rw [hrl]; exact hf
      simp only [hm, Bool.not_false, if_true]
      have hsr : r.1.store = st.store ++ [p] := by rw [hrl, hsS]; rfl
      have hdr : r.1.by_doi = (doiKey p, st.store.length) :: st.by_doi := by
        rw [hrl, hdS]; rfl
      have hur : r.1.unique = st.unique := by rw [hrl, huS]; rfl
      refine ⟨?_, ?_, ?_⟩
      · intro e he
        have he' : e ∈ (doiKey p, st.store.length) :: st.by_doi := by
          have h2 : e ∈ r.1.by_doi := he
          rw [hdr] at h2
          exact h2
        rw [List.mem_cons] at he'
        rcases he' with he' | he'
        · subst he'
          refine ⟨?_, ?_, ?_⟩
          · show st.store.length < r.1.store.length
            rw [hsr]
            simp
          · show truthyStr (r.1.store.getD st.store.length default).doi = true
            rw [hsr, hgetn]
            exact hg
          · show doiKey (r.1.store.getD st.store.length default) = doiKey p
            rw [hsr, hgetn]
        · obtain ⟨he1, he2, he3⟩ := hD0 e he'
          refine ⟨?_, ?_, ?_⟩
          · show e.2 < r.1.store.length
            rw [hsr]
            simp
            omega
          · show truthyStr (r.1.store.getD e.2 default).doi = true
            rw [hsr, hget0 _ he1]
            exact he2
          · show doiKey (r.1.store.getD e.2 default) = e.1
            rw [hsr, hget0 _ he1]
            exact he3
      · intro i hi htr
        have hi' : i ∈ st.unique ++ [st.store.length] := by
          have h2 : i ∈ r.1.unique ++ [st.store.length] := hi
          rw [hur] at h2
          exact h2
        have htr' : truthyStr ((st.store ++ [p]).getD i default).doi = true := by
          have h2 : truthyStr (r.1.store.getD i default).doi = true := htr
          rw [hsr] at h2
          exact h2
        rw [List.mem_append, List.mem_singleton] at hi'
        rcases hi' with hi' | hi'
        · rw [hget0 _ (hb i hi')] at htr'
          obtain ⟨ri, hri⟩ := hD1 i hi' htr'
          by_cases hkk : doiKey (st.store.getD i default) = doiKey p
          · refine ⟨st.store.length, ?_⟩
            show r.1.by_doi.lookup (doiKey (r.1.store.getD i default)) = some st.store.length
            rw [hdr, hsr, hget0 _ (hb i hi'), hkk]
            exact lookup_cons_eq _ _ _
          · refine ⟨ri, ?_⟩
            show r.1.by_doi.lookup (doiKey (r.1.store.getD i default)) = some ri
            rw [hdr, hsr, hget0 _ (hb i hi'), lookup_cons_ne _ _ _ _ hkk]
            exact hri
        · subst hi'
          refine ⟨st.store.length, ?_⟩
          show r.1.by_doi.lookup (doiKey (r.1.store.getD st.store.length default))
            = some st.store.length
          rw [hdr, hsr, hgetn]
          exact lookup_cons_eq _ _ _
      · intro i hi j hj hti htj hk
        have hi' : i ∈ st.unique ++ [st.store.length] := by
          have h2 : i ∈ r.1.unique ++ [st.store.length] := hi
          rw [hur] at h2
          exact h2
        have hj' : j ∈ st.unique ++ [st.store.length] := by
          have h2 : j ∈ r.1.unique ++ [st.store.length] := hj
          rw [hur] at h2
          exact h2
        have hti' : truthyStr ((st.store ++ [p]).getD i default).doi = true := by
          have h2 : truthyStr (r.1.store.getD i default).doi = true := hti
          rw [hsr] at h2
          exact h2
        have htj' : truthyStr ((st.store ++ [p]).getD j default).doi = true := by
          have h2 : truthyStr (r.1.store.getD j default).doi = true := htj
          rw [hsr] at h2
          exact h2
        have hk' : doiKey ((st.store ++ [p]).getD i default)
            = doiKey ((st.store ++ [p]).getD j default) := by
          have h2 : doiKey (r.1.store.getD i default) = doiKey (r.1.store.getD j default) := hk
          rw [hsr] at h2
          exact h2
        rw [List.mem_append, List.mem_singleton] at hi' hj'
        rcases hi' with hi' | hi'
        · rcases hj' with hj' | hj'
          · rw [hget0 _ (hb i hi')] at hti' hk'
            rw [hget0 _ (hb j hj')] at htj' hk'
            exact hD3 i hi' j hj' hti' htj' hk'
          · subst hj'
            rw [hget0 _ (hb i hi')] at hti' hk'
            rw [hgetn] at hk'
            obtain ⟨ri, hri⟩ := hD1 i hi' hti'
            rw [hk', hlq] at hri
            exact Option.noConfusion hri
        · subst hi'
          rcases hj' with hj' | hj'
          · rw [hget0 _ (hb j hj')] at htj' hk'
            rw [hgetn] at hk'
            obtain ⟨rj, hrj⟩ := hD1 j hj' htj'
            rw [← hk', hlq] at hrj
            exact Option.noConfusion hrj
          · subst hj'
            rfl
    · -- 3b: merged at a later probe; at most the one target is back-filled
      --     with the just-registered key
      have hm : r.2 = true := by rw [hrl]; exact htr2
      simp only [hm, Bool.not_true, Bool.false_eq_true, if_false]
      have hsr : r.1.store = (st.store ++ [p]).set t
          (merge_papers ((st.store ++ [p]).getD t default) p) := by
        rw [hrl, hsS]; rfl
      have hdr : r.1.by_doi = (doiKey p, st.store.length) :: st.by_doi := by
        rw [hrl, hdS]; rfl
      have hur : r.1.unique = st.unique := by rw [hrl, huS]; rfl
      have hfd : ∀ j, (r.1.store.getD j default).doi = ((st.store ++ [p]).getD j default).doi ∨
          (truthyStr ((st.store ++ [p]).getD j default).doi = false ∧
           (r.1.store.getD j default).doi = p.doi ∧ j = t) := by
        intro j
        rw [hsr]
        by_cases hj : j = t
        · subst hj
          by_cases hjlt : j < (st.store ++ [p]).length
          · rw [List.getD_eq_getElem?_getD, List.getElem?_set_self hjlt]
            simp only [Option.getD_some]
            cases htd : truthyStr ((st.store ++ [p]).getD j default).doi with
            | true => exact Or.inl (merge_papers_doi_truthy_target _ _ htd)
            | false => exact Or.inr ⟨rfl, merge_papers_doi_backfill _ _ htd hg, trivial⟩
          · rw [List.set_eq_of_length_le (by omega)]
            exact Or.inl rfl
        · rw [List.getD_eq_getElem?_getD, List.getElem?_set_ne (by omega),
            ← List.getD_eq_getElem?_getD]
          exact Or.inl rfl
      have hlen : r.1.store.length = st.store.length + 1 := by
        rw [hsr]
        simp
      refine ⟨?_, ?_, ?_⟩
      · intro e he
        have he' : e ∈ (doiKey p, st.store.length) :: st.by_doi := by
          have h2 : e ∈ r.1.by_doi := he
          rw [hdr] at h2
          exact h2
        rw [List.mem_cons] at he'
        rcases he' with he' | he'
        · subst he'
          have hpd : (r.1.store.getD st.store.length default).doi = p.doi := by
            rcases hfd st.store.length with h2 | ⟨_, h2, _⟩
            · rw [h2, hgetn]
            · exact h2
          refine ⟨?_, ?_, ?_⟩
          · show st.store.length < r.1.store.length
            omega
          · show truthyStr (r.1.store.getD st.store.length default).doi = true
            rw [hpd]
            exact hg
          · show doiKey (r.1.store.getD st.store.length default) = doiKey p
            exact doiKey_eq_of_doi_eq _ p hpd
        · obtain ⟨he1, he2, he3⟩ := hD0 e he'
          rcases hfd e.2 with h2 | ⟨hfalse, _, _⟩
          · have h3 : (r.1.store.getD e.2 default).doi = (st.store.getD e.2 default).doi := by
              rw [h2, hget0 _ he1]
            refine ⟨?_, ?_, ?_⟩
            · show e.2 < r.1.store.length
              omega
            · show truthyStr (r.1.store.getD e.2 default).doi = true
              rw [h3]
              exact he2
            · show doiKey (r.1.store.getD e.2 default) = e.1
              exact (doiKey_eq_of_doi_eq _ _ h3).trans he3
          · rw [hget0 _ he1] at hfalse
            rw [he2] at hfalse
            exact Bool.noConfusion hfalse
      · intro i hi htr
        have hi' : i ∈ st.unique := by
          have h2 : i ∈ r.1.unique := hi
          rw [hur] at h2
          exact h2
        rcases hfd i with h2 | ⟨_, hpdoi, _⟩
        · have h3 : (r.1.store.getD i default).doi = (st.store.getD i default).doi := by
            rw [h2, hget0 _ (hb i hi')]
          have htr' : truthyStr (st.store.getD i default).doi = true := by
            have h4 : truthyStr (r.1.store.getD i default).doi = true := htr
            rw [h3] at h4
            exact h4
          obtain ⟨ri, hri⟩ := hD1 i hi' htr'
          by_cases hkk : doiKey (st.store.getD i default) = doiKey p
          · refine ⟨st.store.length, ?_⟩
            show r.1.by_doi.lookup (doiKey (r.1.store.getD i default)) = some st.store.length
            rw [hdr, doiKey_eq_of_doi_eq _ _ h3, hkk]
            exact lookup_cons_eq _ _ _
          · refine ⟨ri, ?_⟩
            show r.1.by_doi.lookup (doiKey (r.1.store.getD i default)) = some ri
            rw [hdr, doiKey_eq_of_doi_eq _ _ h3, lookup_cons_ne _ _ _ _ hkk]
            exact hri
        · refine ⟨st.store.length, ?_⟩
          show r.1.by_doi.lookup (doiKey (r.1.store.getD i default)) = some st.store.length
          rw [hdr, doiKey_eq_of_doi_eq _ p hpdoi]
          exact lookup_cons_eq _ _ _
      · intro i hi j hj hti htj hk
        have hi' : i ∈ st.unique := by
          have h2 : i ∈ r.1.unique := hi
          rw [hur] at h2
          exact h2
        have hj' : j ∈ st.unique := by
          have h2 : j ∈ r.1.unique := hj
          rw [hur] at h2
          exact h2
        rcases hfd i with h2i | ⟨_, hpi, hit⟩
        · have h3i : (r.1.store.getD i default).doi = (st.store.getD i default).doi := by
            rw [h2i, hget0 _ (hb i hi')]
          rcases hfd j with h2j | ⟨_, hpj, hjt⟩
          · have h3j : (r.1.store.getD j default).doi = (st.store.getD j default).doi := by
              rw [h2j, hget0 _ (hb j hj')]
            have hti' : truthyStr (st.store.getD i default).doi = true := by
              have h4 : truthyStr (r.1.store.getD i default).doi = true := hti
              rw [h3i] at h4
              exact h4
            have htj' : truthyStr (st.store.getD j default).doi = true := by
              have h4 : truthyStr (r.1.store.getD j default).doi = true := htj
              rw [h3j] at h4
              exact h4
            have hk' : doiKey (st.store.getD i default) = doiKey (st.store.getD j default) := by
              have h4 : doiKey (r.1.store.getD i default)
                  = doiKey (r.1.store.getD j default) := hk
              rw [doiKey_eq_of_doi_eq _ _ h3i, doiKey_eq_of_doi_eq _ _ h3j] at h4
              exact h4
            exact hD3 i hi' j hj' hti' htj' hk'
          · -- j is the back-filled target: i would share the fresh key
            have hti' : truthyStr (st.store.getD i default).doi = true := by
              have h4 : truthyStr (r.1.store.getD i default).doi = true := hti
              rw [h3i] at h4
              exact h4
            obtain ⟨ri, hri⟩ := hD1 i hi' hti'
            have hk' : doiKey (st.store.getD i default) = doiKey p := by
              have h4 : doiKey (r.1.store.getD i default)
                  = doiKey (r.1.store.getD j default) := hk
              rw [doiKey_eq_of_doi_eq _ _ h3i, doiKey_eq_of_doi_eq _ p hpj] at h4
              exact h4
            rw [hk', hlq] at hri
            exact Option.noConfusion hri
        · rcases hfd j with h2j | ⟨_, hpj, hjt⟩
          · have h3j : (r.1.store.getD j default).doi = (st.store.getD j default).doi := by
              rw [h2j, hget0 _ (hb j hj')]
            have htj' : truthyStr (st.store.getD j default).doi = true := by
              have h4 : truthyStr (r.1.store.getD j default).doi = true := htj
              rw [h3j] at h4
              exact h4
            obtain ⟨rj, hrj⟩ := hD1 j hj' htj'
            have hk' : doiKey (st.store.getD j default) = doiKey p := by
              have h4 : doiKey (r.1.store.getD i default)
                  = doiKey (r.1.store.getD j default) := hk
              rw [doiKey_eq_of_doi_eq _ _ h3j, doiKey_eq_of_doi_eq _ p hpi] at h4
              exact h4.symm
            rw [hk', hlq] at hrj
            exact Option.noConfusion hrj
          · rw [hit, hjt]

end Orchestrator

namespace Orchestrator

theorem inv_both_fold (L : List Paper) :
    ∀ st : DedupState, TitleInv st → DoiInv st →
      TitleInv (L.foldl dedup_step st) ∧ DoiInv (L.foldl dedup_step st) := by
  induction L with
  | nil =>
    intro st h1 h2
    exact ⟨h1, h2⟩
  | cons p L ih =>
    intro st h1 h2
    rw [List.foldl_cons]
    exact ih _ (titleInv_step st p h1) (doiInv_step st p h1 h2)

end Orchestrator

/-- Amended C1: after `_deduplicate`, any two distinct papers of the
unique list have different normalized titles, and when both carry a
truthy DOI their lowercased-trimmed DOI keys also differ (the DOI probe
runs first, so a DOI key is registered exactly once and every later
paper carrying it is merged away - back-filling cannot duplicate a DOI
among survivors).  The PMID and arXiv clauses of the claim fail in
general, because a duplicate can merge via an earlier probe before its
PMID/arXiv key is consulted, back-filling an identifier that another
survivor already carries. -/
theorem dedup_titles_and_dois_pairwise_distinct (papers : List Paper) :
    (Orchestrator.deduplicate papers).Pairwise
      (fun p q => Orchestrator.title_doi_distinct p q = true) := by
  have hinit : Orchestrator.TitleInv {} ∧ Orchestrator.DoiInv ({} : Orchestrator.DedupState) := by
    constructor
    · exact ⟨by intro j hj; exact absurd hj (List.not_mem_nil j),
        List.nodup_nil,
        by intro j hj; exact absurd hj (List.not_mem_nil j)⟩
    · exact ⟨by intro e he; exact absurd he (List.not_mem_nil e),
        by intro i hi; exact absurd hi (List.not_mem_nil i),
        by intro i hi; exact absurd hi (List.not_mem_nil i)⟩
  obtain ⟨⟨hb, hnd, hlk⟩, hD0, hD1, hD3⟩ :=
    Orchestrator.inv_both_fold papers {} hinit.1 hinit.2
  show (((papers.foldl Orchestrator.dedup_step {}).unique).map
    (fun i => (papers.foldl Orchestrator.dedup_step {}).store.getD i default)).Pairwise _
  rw [List.pairwise_map]
  refine List.Pairwise.imp_of_mem ?_ hnd
  intro a b ha hb' hne
  rw [Orchestrator.title_doi_distinct, Bool.and_eq_true, Bool.or_eq_true, bne_iff_ne]
  constructor
  · intro hkey
    have h1 := hlk a ha
    have h2 := hlk b hb'
    rw [show Orchestrator.titleKey
        ((papers.foldl Orchestrator.dedup_step {}).store.getD a default)
        = Orchestrator.titleKey
        ((papers.foldl Orchestrator.dedup_step {}).store.getD b default) from hkey] at h1
    rw [h1] at h2
    exact hne (Option.some.inj h2)
  · by_cases hta : truthyStr
        ((papers.foldl Orchestrator.dedup_step {}).store.getD a default).doi = true
    · by_cases htb : truthyStr
          ((papers.foldl Orchestrator.dedup_step {}).store.getD b default).doi = true
      · right
        rw [bne_iff_ne]
        intro hk
        exact hne (hD3 a ha b hb' hta htb hk)
      · left
        rw [Bool.not_eq_true']
        rw [Bool.not_eq_true] at htb
        rw [htb]
        simp
    · left
      rw [Bool.not_eq_true']
      rw [Bool.not_eq_true] at hta
      rw [hta]
      simp
